import Mathlib

/-!
# Verification of the subscription-tracker calendar engine and intake helpers

Shallow embedding of the recurring-date logic of the subscription bot:

* `calculate_next_payment_date` and `days_until_payment` from `utils.py`,
* the elapsed-occurrence counting of `get_total_expenses_active_periods`
  from `database.py`,
* the comment normalisation of `handle_comment` from `handlers.py`,
* the flexible date parser `parse_date_flexible` from `utils.py`.

Calendar dates are records of year/month/day integers ordered as Python
orders `datetime.date` values (lexicographically by components, which for
valid dates coincides with the day-number order `toOrdinal`).
-/

/-- A calendar date: the `datetime.date` value `(year, month, day)`. -/
structure Date where
  y : Int
  m : Int
  d : Int
deriving DecidableEq, Repr

/-- Gregorian leap-year test, as in Python's `calendar.isleap` /
`datetime`: divisible by 4 and (not by 100 or by 400). -/
def isLeap (y : Int) : Bool :=
  (y % 4 == 0 && y % 100 != 0) || y % 400 == 0

/-- Number of days in a month (`calendar.monthrange(y, m)[1]`). -/
def daysInMonth (y m : Int) : Int :=
  if m = 2 then (if isLeap y then 29 else 28)
  else if m = 4 ∨ m = 6 ∨ m = 9 ∨ m = 11 then 30
  else 31

/-- Cumulative days before month `m` in a non-leap year
(CPython `datetime._DAYS_BEFORE_MONTH`). -/
def daysBeforeMonthCommon (m : Int) : Int :=
  if m = 1 then 0
  else if m = 2 then 31
  else if m = 3 then 59
  else if m = 4 then 90
  else if m = 5 then 120
  else if m = 6 then 151
  else if m = 7 then 181
  else if m = 8 then 212
  else if m = 9 then 243
  else if m = 10 then 273
  else if m = 11 then 304
  else 334

/-- Cumulative days before month `m` of year `y`
(CPython `datetime._days_before_month`). -/
def daysBeforeMonth (y m : Int) : Int :=
  daysBeforeMonthCommon m + (if 3 ≤ m ∧ isLeap y then 1 else 0)

/-- Days before January 1st of year `y` counted from the epoch of day
numbers (CPython `datetime._days_before_year`). -/
def daysBeforeYear (y : Int) : Int :=
  365 * (y - 1) + (y - 1) / 4 - (y - 1) / 100 + (y - 1) / 400

/-- Proleptic-Gregorian day number of a date
(Python `datetime.date.toordinal`). -/
def Date.toOrdinal (x : Date) : Int :=
  daysBeforeYear x.y + daysBeforeMonth x.y x.m + x.d

/-- The date is a value `datetime.date` accepts: months `1..12`, days
within the month, positive year. -/
def Date.Valid (x : Date) : Prop :=
  1 ≤ x.y ∧ 1 ≤ x.m ∧ x.m ≤ 12 ∧ 1 ≤ x.d ∧ x.d ≤ daysInMonth x.y x.m

instance (x : Date) : Decidable x.Valid := by
  unfold Date.Valid; infer_instance

/-- Python's `date < date`: lexicographic on `(year, month, day)`. -/
def lexLt (a b : Date) : Prop :=
  a.y < b.y ∨ (a.y = b.y ∧ (a.m < b.m ∨ (a.m = b.m ∧ a.d < b.d)))

/-- Python's `date <= date`. -/
def lexLe (a b : Date) : Prop :=
  a.y < b.y ∨ (a.y = b.y ∧ (a.m < b.m ∨ (a.m = b.m ∧ a.d ≤ b.d)))

instance (a b : Date) : Decidable (lexLt a b) := by
  unfold lexLt; infer_instance

instance (a b : Date) : Decidable (lexLe a b) := by
  unfold lexLe; infer_instance

theorem lexLe_iff_lt_or_eq (a b : Date) : lexLe a b ↔ lexLt a b ∨ a = b := by
  cases a; cases b
  simp only [lexLe, lexLt, Date.mk.injEq]
  omega

theorem lexLt_of_not_le {a b : Date} (h : ¬ lexLe a b) : lexLt b a := by
  cases a; cases b
  simp only [lexLe, not_or, not_and, not_lt] at h
  simp only [lexLt]
  omega

theorem lexLe_of_not_lt {a b : Date} (h : ¬ lexLt a b) : lexLe b a := by
  cases a; cases b
  simp only [lexLt, not_or, not_and, not_lt] at h
  simp only [lexLe]
  omega

theorem daysInMonth_pos (y m : Int) : 1 ≤ daysInMonth y m := by
  unfold daysInMonth
  split_ifs <;> omega

theorem daysInMonth_le_31 (y m : Int) : daysInMonth y m ≤ 31 := by
  unfold daysInMonth
  split_ifs <;> omega

theorem isLeap_iff (y : Int) :
    isLeap y = true ↔ ((y % 4 = 0 ∧ ¬ y % 100 = 0) ∨ y % 400 = 0) := by
  simp [isLeap, Bool.or_eq_true, Bool.and_eq_true, beq_iff_eq, bne_iff_ne]

theorem daysBeforeMonth_step (y : Int) {m : Int} (h1 : 1 ≤ m) (h2 : m ≤ 11) :
    daysBeforeMonth y (m + 1) = daysBeforeMonth y m + daysInMonth y m := by
  interval_cases m <;>
    simp [daysBeforeMonth, daysBeforeMonthCommon, daysInMonth] <;>
    split_ifs <;> omega

theorem daysBeforeMonth_add_le (y : Int) {m : Int} (h1 : 1 ≤ m) (h2 : m ≤ 12) :
    daysBeforeMonth y m + daysInMonth y m ≤
      365 + (if isLeap y then 1 else 0) := by
  interval_cases m <;>
    simp [daysBeforeMonth, daysBeforeMonthCommon, daysInMonth] <;>
    split_ifs <;> omega

theorem daysBeforeMonth_mono (y : Int) {m m' : Int} (h1 : 1 ≤ m) (hlt : m < m')
    (h2 : m' ≤ 12) :
    daysBeforeMonth y m + daysInMonth y m ≤ daysBeforeMonth y m' := by
  have hm2 : 2 ≤ m' := by omega
  interval_cases m' <;> interval_cases m <;>
    simp [daysBeforeMonth, daysBeforeMonthCommon, daysInMonth] <;>
    split_ifs <;> omega

theorem daysBeforeMonth_nonneg (y : Int) {m : Int} (h1 : 1 ≤ m) (h2 : m ≤ 12) :
    0 ≤ daysBeforeMonth y m := by
  interval_cases m <;>
    simp [daysBeforeMonth, daysBeforeMonthCommon] <;> split_ifs <;> omega

theorem daysBeforeYear_succ (y : Int) :
    daysBeforeYear (y + 1) =
      daysBeforeYear y + 365 + (if isLeap y then 1 else 0) := by
  unfold daysBeforeYear
  by_cases h : isLeap y = true
  · rw [if_pos h]
    rw [isLeap_iff] at h
    omega
  · rw [if_neg h]
    rw [isLeap_iff] at h
    omega

theorem daysBeforeYear_mono {y y' : Int} (h : y ≤ y') :
    daysBeforeYear y ≤ daysBeforeYear y' := by
  unfold daysBeforeYear
  omega

theorem toOrdinal_lt_of_lexLt {a b : Date} (ha : a.Valid) (hb : b.Valid)
    (h : lexLt a b) : a.toOrdinal < b.toOrdinal := by
  obtain ⟨ya, ma, da⟩ := a
  obtain ⟨yb, mb, db⟩ := b
  obtain ⟨hay, ham1, ham2, had1, had2⟩ := ha
  obtain ⟨hby, hbm1, hbm2, hbd1, hbd2⟩ := hb
  simp only [lexLt] at h
  simp only [Date.toOrdinal] at *
  rcases h with hy | ⟨hy, hm | ⟨hm, hd⟩⟩
  · have e1 : daysBeforeMonth ya ma + daysInMonth ya ma ≤
        365 + (if isLeap ya then 1 else 0) := daysBeforeMonth_add_le ya ham1 ham2
    have e2 : daysBeforeYear (ya + 1) =
        daysBeforeYear ya + 365 + (if isLeap ya then 1 else 0) :=
      daysBeforeYear_succ ya
    have e3 : daysBeforeYear (ya + 1) ≤ daysBeforeYear yb :=
      daysBeforeYear_mono (by omega)
    have e4 : 0 ≤ daysBeforeMonth yb mb := daysBeforeMonth_nonneg yb hbm1 hbm2
    omega
  · subst hy
    have e1 : daysBeforeMonth ya ma + daysInMonth ya ma ≤
        daysBeforeMonth ya mb := daysBeforeMonth_mono ya ham1 hm hbm2
    omega
  · subst hy
    subst hm
    omega

theorem toOrdinal_le_of_lexLe {a b : Date} (ha : a.Valid) (hb : b.Valid)
    (h : lexLe a b) : a.toOrdinal ≤ b.toOrdinal := by
  rcases (lexLe_iff_lt_or_eq a b).mp h with h' | h'
  · exact le_of_lt (toOrdinal_lt_of_lexLt ha hb h')
  · rw [h']

theorem lexLt_of_toOrdinal_lt {a b : Date} (ha : a.Valid) (hb : b.Valid)
    (h : a.toOrdinal < b.toOrdinal) : lexLt a b := by
  by_contra hc
  exact absurd (toOrdinal_le_of_lexLe hb ha (lexLe_of_not_lt hc)) (by omega)

theorem lexLe_of_toOrdinal_le {a b : Date} (ha : a.Valid) (hb : b.Valid)
    (h : a.toOrdinal ≤ b.toOrdinal) : lexLe a b := by
  by_contra hc
  exact absurd (toOrdinal_lt_of_lexLt hb ha (lexLt_of_not_le hc)) (by omega)

/-- The day after `x`: the effect of Python `date + timedelta(days=1)`. -/
def nextDay (x : Date) : Date :=
  if x.d < daysInMonth x.y x.m then ⟨x.y, x.m, x.d + 1⟩
  else if x.m < 12 then ⟨x.y, x.m + 1, 1⟩
  else ⟨x.y + 1, 1, 1⟩

/-- Python `date + timedelta(days=k)` for `k ≥ 0`, as `k` single-day steps. -/
def addDays (x : Date) : Nat → Date
  | 0 => x
  | k + 1 => nextDay (addDays x k)

theorem valid_mk {y m d : Int} :
    (Date.mk y m d).Valid ↔
      (1 ≤ y ∧ 1 ≤ m ∧ m ≤ 12 ∧ 1 ≤ d ∧ d ≤ daysInMonth y m) :=
  Iff.rfl

theorem nextDay_valid {x : Date} (h : x.Valid) : (nextDay x).Valid := by
  obtain ⟨y, m, d⟩ := x
  obtain ⟨h1, h2, h3, h4, h5⟩ := valid_mk.mp h
  unfold nextDay
  split_ifs with c1 c2
  · have c1' : d < daysInMonth y m := c1
    refine ⟨h1, h2, h3, ?_, ?_⟩
    · show 1 ≤ d + 1
      omega
    · show d + 1 ≤ daysInMonth y m
      omega
  · have c2' : m < 12 := c2
    refine ⟨h1, ?_, ?_, ?_, ?_⟩
    · show 1 ≤ m + 1
      omega
    · show m + 1 ≤ 12
      omega
    · show (1 : Int) ≤ 1
      omega
    · show 1 ≤ daysInMonth y (m + 1)
      exact daysInMonth_pos y (m + 1)
  · refine ⟨?_, ?_, ?_, ?_, ?_⟩
    · show 1 ≤ y + 1
      omega
    · show (1 : Int) ≤ 1
      omega
    · show (1 : Int) ≤ 12
      omega
    · show (1 : Int) ≤ 1
      omega
    · show 1 ≤ daysInMonth (y + 1) 1
      exact daysInMonth_pos (y + 1) 1

theorem nextDay_toOrdinal {x : Date} (h : x.Valid) :
    (nextDay x).toOrdinal = x.toOrdinal + 1 := by
  obtain ⟨y, m, d⟩ := x
  obtain ⟨h1, h2, h3, h4, h5⟩ := valid_mk.mp h
  unfold nextDay
  split_ifs with c1 c2
  · simp [Date.toOrdinal]
    omega
  · have c1' : ¬ d < daysInMonth y m := c1
    have c2' : m < 12 := c2
    have hd : d = daysInMonth y m := by omega
    have e := daysBeforeMonth_step y h2 (by omega)
    simp [Date.toOrdinal]
    omega
  · have c1' : ¬ d < daysInMonth y m := c1
    have c2' : ¬ m < 12 := c2
    have hm : m = 12 := by omega
    have hd : d = 31 := by
      subst hm
      simp [daysInMonth] at h5 c1' ⊢
      omega
    have e := daysBeforeYear_succ y
    subst hm
    subst hd
    simp [Date.toOrdinal, daysBeforeMonth, daysBeforeMonthCommon]
    by_cases hl : isLeap y = true <;> simp [hl] at e ⊢ <;> omega

theorem addDays_valid {x : Date} (h : x.Valid) (k : Nat) : (addDays x k).Valid := by
  induction k with
  | zero => exact h
  | succ n ih => exact nextDay_valid ih

theorem addDays_toOrdinal {x : Date} (h : x.Valid) (k : Nat) :
    (addDays x k).toOrdinal = x.toOrdinal + k := by
  induction k with
  | zero => simp [addDays]
  | succ n ih =>
      have := nextDay_toOrdinal (addDays_valid h n)
      simp only [addDays, this, ih]
      push_cast
      ring

/-- `start.replace(year=ny, month=nm)` guarded by the
`try/except ValueError` of the monthly/quarterly branches: if the start
day does not exist in the target month, the last day of that month is
used (`calendar.monthrange(ny, nm)[1]`). -/
def clampDay (ny nm d : Int) : Date :=
  ⟨ny, nm, if d ≤ daysInMonth ny nm then d else daysInMonth ny nm⟩

/-- `start.replace(year=ny)` guarded by the `try/except ValueError` of the
yearly branch: a Feb 29 start in a non-leap target year becomes day 28. -/
def yearClamp (start : Date) (ny : Int) : Date :=
  if start.d ≤ daysInMonth ny start.m then ⟨ny, start.m, start.d⟩
  else ⟨ny, start.m, 28⟩

theorem lexLe_year {a b : Date} (h : lexLe a b) : a.y ≤ b.y := by
  obtain ⟨ya, ma, da⟩ := a
  obtain ⟨yb, mb, db⟩ := b
  simp only [lexLe] at h
  show ya ≤ yb
  omega

/-- The `while next_payment <= today` loop of the quarterly branch of
`calculate_next_payment_date`: step the candidate `(ny, nm)` month pair
forward by 3 months (wrapping over December) until the clamped candidate
date exceeds `today`. -/
def quarterLoop (start today : Date) (ny nm : Int) : Date :=
  if h : lexLe (clampDay ny nm start.d) today then
    if h2 : nm + 3 > 12 then quarterLoop start today (ny + 1) (nm + 3 - 12)
    else quarterLoop start today ny (nm + 3)
  else clampDay ny nm start.d
termination_by 16 * (today.y + 1 - ny).toNat + (16 - nm).toNat
decreasing_by
  all_goals
    have e := lexLe_year h
    simp only [clampDay] at e
    omega

/-- `calculate_next_payment_date` from `utils.py`. The Python function
receives `start_date` as a string and parses it, and reads `today` from
the system clock; here both dates are explicit arguments. Python date
comparison is the lexicographic `lexLt`/`lexLe`, date subtraction
`.days` is the difference of `toOrdinal` day numbers, and `timedelta`
addition is `addDays`. A period string outside the five known ones falls
through to `start`, as in the source. -/
def calculate_next_payment_date (start today : Date) (period : String) : Date :=
  if lexLt today start then start
  else if period = "daily" then
    let n : Int := today.toOrdinal - start.toOrdinal
    let np := addDays start (n + 1).toNat
    if lexLe np today then addDays np 1 else np
  else if period = "weekly" then
    let n : Int := (today.toOrdinal - start.toOrdinal) / 7
    let np := addDays start (7 * (n + 1)).toNat
    if lexLe np today then addDays np 7 else np
  else if period = "monthly" then
    let months : Int := (today.y - start.y) * 12 + (today.m - start.m)
    let nm0 : Int := start.m + months
    let ny : Int := start.y + (nm0 - 1) / 12
    let nm : Int := (nm0 - 1) % 12 + 1
    let np := clampDay ny nm start.d
    if lexLe np today then
      if nm + 1 > 12 then clampDay (ny + 1) 1 start.d
      else clampDay ny (nm + 1) start.d
    else np
  else if period = "quarterly" then
    let months : Int := ((today.y - start.y) * 12 + (today.m - start.m)) / 3 * 3
    let nm0 : Int := start.m + months
    let ny : Int := start.y + (nm0 - 1) / 12
    let nm : Int := (nm0 - 1) % 12 + 1
    quarterLoop start today ny nm
  else if period = "yearly" then
    let ny : Int := start.y + (today.y - start.y)
    let np := yearClamp start ny
    if lexLe np today then yearClamp start (ny + 1) else np
  else start

/-- `days_until_payment` from `utils.py`: `(next_payment_date - today).days`. -/
def days_until_payment (next_payment_date today : Date) : Int :=
  next_payment_date.toOrdinal - today.toOrdinal

/-- Modelled from the spec, §4.1 step semantics: the occurrence of a
month-stepped schedule `q` months after the anchor, day-of-month
preserved when legal, else clamped to the last day of the target month.
Used as the `monthly` (step 1) and `quarterly` (step 3) schedule. -/
def monthOccurrence (start : Date) (q : Int) : Date :=
  clampDay (start.y + (start.m + q - 1) / 12) ((start.m + q - 1) % 12 + 1)
    start.d

/-- Modelled from the spec, §4.1: the recurrence schedule anchored at
`start` with step `period`; `occurrence start period k` is the k-th
scheduled billing date (k = 0 is `start` itself). -/
def occurrence (start : Date) (period : String) (k : Nat) : Date :=
  if period = "daily" then addDays start k
  else if period = "weekly" then addDays start (7 * k)
  else if period = "monthly" then monthOccurrence start k
  else if period = "quarterly" then monthOccurrence start (3 * k)
  else if period = "yearly" then yearClamp start (start.y + k)
  else start

/-- Modelled from the spec, §4.1 contract of `NextOccurrence`: `res` lies
on the schedule, is strictly after `today`, and no schedule date strictly
after `today` is earlier than `res`. -/
def IsNextOnSchedule (start today : Date) (period : String) (res : Date) :
    Prop :=
  (∃ k : Nat, res = occurrence start period k) ∧ lexLt today res ∧
    ∀ j : Nat, lexLt today (occurrence start period j) →
      lexLe res (occurrence start period j)

theorem lexLe_refl (a : Date) : lexLe a a := by
  simp [lexLe]

theorem lexLt_asymm {a b : Date} (h1 : lexLt a b) (h2 : lexLt b a) : False := by
  obtain ⟨ya, ma, da⟩ := a
  obtain ⟨yb, mb, db⟩ := b
  simp only [lexLt] at h1 h2
  omega

theorem lexLe_lexLt_absurd {a b : Date} (h1 : lexLe a b) (h2 : lexLt b a) :
    False := by
  obtain ⟨ya, ma, da⟩ := a
  obtain ⟨yb, mb, db⟩ := b
  simp only [lexLe, lexLt] at h1 h2
  omega

theorem lexLt_of_mi_lt {a b : Date} (ha1 : 1 ≤ a.m) (ha2 : a.m ≤ 12)
    (hb1 : 1 ≤ b.m) (hb2 : b.m ≤ 12)
    (h : 12 * a.y + a.m < 12 * b.y + b.m) : lexLt a b := by
  obtain ⟨ya, ma, da⟩ := a
  obtain ⟨yb, mb, db⟩ := b
  simp only at ha1 ha2 hb1 hb2 h
  simp only [lexLt]
  omega

theorem lexLe_mi_le {a b : Date} (ha1 : 1 ≤ a.m) (ha2 : a.m ≤ 12)
    (hb1 : 1 ≤ b.m) (hb2 : b.m ≤ 12)
    (h : lexLe a b) : 12 * a.y + a.m ≤ 12 * b.y + b.m := by
  obtain ⟨ya, ma, da⟩ := a
  obtain ⟨yb, mb, db⟩ := b
  simp only at ha1 ha2 hb1 hb2
  simp only [lexLe] at h
  show 12 * ya + ma ≤ 12 * yb + mb
  omega

theorem monthOccurrence_y (start : Date) (q : Int) :
    (monthOccurrence start q).y = start.y + (start.m + q - 1) / 12 := rfl

theorem monthOccurrence_m (start : Date) (q : Int) :
    (monthOccurrence start q).m = (start.m + q - 1) % 12 + 1 := rfl

theorem monthOccurrence_m_bounds (start : Date) (q : Int) :
    1 ≤ (monthOccurrence start q).m ∧ (monthOccurrence start q).m ≤ 12 := by
  rw [monthOccurrence_m]
  omega

theorem monthOccurrence_mi (start : Date) (q : Int) :
    12 * (monthOccurrence start q).y + (monthOccurrence start q).m =
      12 * start.y + start.m + q := by
  rw [monthOccurrence_y, monthOccurrence_m]
  omega

theorem monthOccurrence_zero {start : Date} (hv : start.Valid) :
    monthOccurrence start 0 = start := by
  obtain ⟨y, m, d⟩ := start
  obtain ⟨h1, h2, h3, h4, h5⟩ := valid_mk.mp hv
  simp only [monthOccurrence, clampDay, Date.mk.injEq]
  have e1 : y + (m + 0 - 1) / 12 = y := by omega
  have e2 : (m + 0 - 1) % 12 + 1 = m := by omega
  rw [e1, e2]
  refine ⟨rfl, rfl, ?_⟩
  rw [if_pos h5]

theorem monthOccurrence_valid {start : Date} (hv : start.Valid) (q : Int)
    (hy : 1 ≤ start.y + (start.m + q - 1) / 12) :
    (monthOccurrence start q).Valid := by
  have h4 := hv.2.2.2.1
  have hp := daysInMonth_pos (start.y + (start.m + q - 1) / 12)
    ((start.m + q - 1) % 12 + 1)
  rw [monthOccurrence, clampDay, valid_mk]
  refine ⟨hy, by omega, by omega, ?_, ?_⟩ <;> split_ifs <;> omega

theorem occurrence_daily (start : Date) (k : Nat) :
    occurrence start "daily" k = addDays start k := by
  simp only [occurrence, String.reduceEq, reduceIte]

theorem occurrence_weekly (start : Date) (k : Nat) :
    occurrence start "weekly" k = addDays start (7 * k) := by
  simp only [occurrence, String.reduceEq, reduceIte]

theorem occurrence_monthly (start : Date) (k : Nat) :
    occurrence start "monthly" k = monthOccurrence start k := by
  simp only [occurrence, String.reduceEq, reduceIte]

theorem occurrence_quarterly (start : Date) (k : Nat) :
    occurrence start "quarterly" k = monthOccurrence start (3 * k) := by
  simp only [occurrence, String.reduceEq, reduceIte]

theorem occurrence_yearly (start : Date) (k : Nat) :
    occurrence start "yearly" k = yearClamp start (start.y + k) := by
  simp only [occurrence, String.reduceEq, reduceIte]

theorem daily_spec (start today : Date) (hv : start.Valid) (hvt : today.Valid)
    (hge : ¬ lexLt today start) :
    IsNextOnSchedule start today "daily"
      (calculate_next_payment_date start today "daily") := by
  have hST : start.toOrdinal ≤ today.toOrdinal :=
    toOrdinal_le_of_lexLe hv hvt (lexLe_of_not_lt hge)
  rw [calculate_next_payment_date, if_neg hge]
  simp only [String.reduceEq, reduceIte]
  set k : Nat := (today.toOrdinal - start.toOrdinal + 1).toNat with hk
  have hnpv : (addDays start k).Valid := addDays_valid hv k
  have hord : (addDays start k).toOrdinal = today.toOrdinal + 1 := by
    rw [addDays_toOrdinal hv k]
    omega
  have hnotle : ¬ lexLe (addDays start k) today := by
    intro hle
    have := toOrdinal_le_of_lexLe hnpv hvt hle
    omega
  rw [if_neg hnotle]
  refine ⟨⟨k, (occurrence_daily start k).symm⟩, ?_, ?_⟩
  · exact lexLt_of_toOrdinal_lt hvt hnpv (by omega)
  · intro j hj
    rw [occurrence_daily] at hj ⊢
    have hjv : (addDays start j).Valid := addDays_valid hv j
    have hjord := addDays_toOrdinal hv j
    have := toOrdinal_lt_of_lexLt hvt hjv hj
    refine lexLe_of_toOrdinal_le hnpv hjv ?_
    omega

theorem weekly_spec (start today : Date) (hv : start.Valid) (hvt : today.Valid)
    (hge : ¬ lexLt today start) :
    IsNextOnSchedule start today "weekly"
      (calculate_next_payment_date start today "weekly") := by
  have hST : start.toOrdinal ≤ today.toOrdinal :=
    toOrdinal_le_of_lexLe hv hvt (lexLe_of_not_lt hge)
  rw [calculate_next_payment_date, if_neg hge]
  simp only [String.reduceEq, reduceIte]
  set n : Int := (today.toOrdinal - start.toOrdinal) / 7 with hn
  set k : Nat := (7 * (n + 1)).toNat with hk
  have hn0 : 0 ≤ n := by rw [hn]; omega
  have hnpv : (addDays start k).Valid := addDays_valid hv k
  have hord : (addDays start k).toOrdinal = start.toOrdinal + 7 * (n + 1) := by
    rw [addDays_toOrdinal hv k]
    omega
  have hgt : today.toOrdinal < start.toOrdinal + 7 * (n + 1) := by
    rw [hn]
    omega
  have hnotle : ¬ lexLe (addDays start k) today := by
    intro hle
    have := toOrdinal_le_of_lexLe hnpv hvt hle
    omega
  rw [if_neg hnotle]
  have hocc : occurrence start "weekly" (n + 1).toNat = addDays start k := by
    rw [occurrence_weekly]
    congr 1
    omega
  refine ⟨⟨(n + 1).toNat, hocc.symm⟩, ?_, ?_⟩
  · exact lexLt_of_toOrdinal_lt hvt hnpv (by omega)
  · intro j hj
    rw [occurrence_weekly] at hj ⊢
    have hjv : (addDays start (7 * j)).Valid := addDays_valid hv (7 * j)
    have hjord := addDays_toOrdinal hv (7 * j)
    have := toOrdinal_lt_of_lexLt hvt hjv hj
    refine lexLe_of_toOrdinal_le hnpv hjv ?_
    have hc : ((7 * j : Nat) : Int) = 7 * (j : Int) := by push_cast; ring
    rw [hc] at hjord
    omega

theorem monthOccurrence_congr (start : Date) {q q' : Int} (h : q = q') :
    monthOccurrence start q = monthOccurrence start q' := by
  rw [h]

theorem clampDay_congr {y y' m m' : Int} (hy : y = y') (hm : m = m')
    (d : Int) : clampDay y m d = clampDay y' m' d := by
  rw [hy, hm]

theorem monthly_spec (start today : Date) (hv : start.Valid) (hvt : today.Valid)
    (hge : ¬ lexLt today start) :
    IsNextOnSchedule start today "monthly"
      (calculate_next_payment_date start today "monthly") := by
  have hsm1 : 1 ≤ start.m := hv.2.1
  have hsm2 : start.m ≤ 12 := hv.2.2.1
  have htm1 : 1 ≤ today.m := hvt.2.1
  have htm2 : today.m ≤ 12 := hvt.2.2.1
  have hty : 1 ≤ today.y := hvt.1
  rw [calculate_next_payment_date, if_neg hge]
  simp only [String.reduceEq, reduceIte]
  rw [show clampDay
      (start.y + (start.m + ((today.y - start.y) * 12 + (today.m - start.m)) - 1) / 12)
      ((start.m + ((today.y - start.y) * 12 + (today.m - start.m)) - 1) % 12 + 1)
      start.d
      = monthOccurrence start ((today.y - start.y) * 12 + (today.m - start.m))
      from rfl]
  have hM0 : 0 ≤ (today.y - start.y) * 12 + (today.m - start.m) := by
    have := lexLe_mi_le hsm1 hsm2 htm1 htm2 (lexLe_of_not_lt hge)
    omega
  have hpair :
      start.y + (start.m + ((today.y - start.y) * 12 + (today.m - start.m)) - 1) / 12
        = today.y ∧
      (start.m + ((today.y - start.y) * 12 + (today.m - start.m)) - 1) % 12 + 1
        = today.m := by
    constructor <;> omega
  have hadv :
      (if 12 < (start.m + ((today.y - start.y) * 12 + (today.m - start.m)) - 1) % 12 + 1 + 1
       then clampDay
          (start.y + (start.m + ((today.y - start.y) * 12 + (today.m - start.m)) - 1) / 12 + 1)
          1 start.d
       else clampDay
          (start.y + (start.m + ((today.y - start.y) * 12 + (today.m - start.m)) - 1) / 12)
          ((start.m + ((today.y - start.y) * 12 + (today.m - start.m)) - 1) % 12 + 1 + 1)
          start.d)
      = monthOccurrence start ((today.y - start.y) * 12 + (today.m - start.m) + 1) := by
    unfold monthOccurrence
    split_ifs with hc
    · exact clampDay_congr (by omega) (by omega) start.d
    · exact clampDay_congr (by omega) (by omega) start.d
  rw [hadv]
  set M : Int := (today.y - start.y) * 12 + (today.m - start.m) with hMdef
  have hnpv : (monthOccurrence start M).Valid :=
    monthOccurrence_valid hv M (by omega)
  have hnp2v : (monthOccurrence start (M + 1)).Valid :=
    monthOccurrence_valid hv (M + 1) (by omega)
  have hmiM := monthOccurrence_mi start M
  have hmiM1 := monthOccurrence_mi start (M + 1)
  have hbM := monthOccurrence_m_bounds start M
  have hbM1 := monthOccurrence_m_bounds start (M + 1)
  have hmitoday : 12 * today.y + today.m = 12 * start.y + start.m + M := by
    omega
  by_cases hle : lexLe (monthOccurrence start M) today
  · rw [if_pos hle]
    refine ⟨⟨(M + 1).toNat, ?_⟩, ?_, ?_⟩
    · rw [occurrence_monthly]
      exact (monthOccurrence_congr start (by omega)).symm
    · exact lexLt_of_mi_lt htm1 htm2 hbM1.1 hbM1.2 (by omega)
    · intro j hj
      rw [occurrence_monthly] at hj ⊢
      have hmij := monthOccurrence_mi start j
      have hbj := monthOccurrence_m_bounds start j
      rcases lt_trichotomy (j : Int) M with hc | hc | hc
      · exact absurd hj (fun hj' => lexLt_asymm hj'
          (lexLt_of_mi_lt hbj.1 hbj.2 htm1 htm2 (by omega)))
      · exact absurd hj (fun hj' => lexLe_lexLt_absurd
          (by rw [monthOccurrence_congr start hc]; exact hle) hj')
      · rcases lt_or_eq_of_le (by omega : M + 1 ≤ (j : Int)) with hc2 | hc2
        · exact (lexLe_iff_lt_or_eq _ _).mpr (Or.inl
            (lexLt_of_mi_lt hbM1.1 hbM1.2 hbj.1 hbj.2 (by omega)))
        · exact (lexLe_iff_lt_or_eq _ _).mpr (Or.inr
            (monthOccurrence_congr start hc2))
  · rw [if_neg hle]
    refine ⟨⟨M.toNat, ?_⟩, lexLt_of_not_le hle, ?_⟩
    · rw [occurrence_monthly]
      exact (monthOccurrence_congr start (by omega)).symm
    · intro j hj
      rw [occurrence_monthly] at hj ⊢
      have hmij := monthOccurrence_mi start j
      have hbj := monthOccurrence_m_bounds start j
      rcases lt_trichotomy (j : Int) M with hc | hc | hc
      · exact absurd hj (fun hj' => lexLt_asymm hj'
          (lexLt_of_mi_lt hbj.1 hbj.2 htm1 htm2 (by omega)))
      · exact (lexLe_iff_lt_or_eq _ _).mpr (Or.inr (monthOccurrence_congr start hc.symm))
      · exact (lexLe_iff_lt_or_eq _ _).mpr (Or.inl
          (lexLt_of_mi_lt hbM.1 hbM.2 hbj.1 hbj.2 (by omega)))

theorem monthOccurrence_pair (start : Date) {ny nm : Int} (hm1 : 1 ≤ nm)
    (hm2 : nm ≤ 12) :
    monthOccurrence start (12 * ny + nm - 12 * start.y - start.m) =
      clampDay ny nm start.d := by
  unfold monthOccurrence
  exact clampDay_congr (by omega) (by omega) start.d

theorem quarterLoop_spec (start today : Date) :
    ∀ ny nm : Int, 1 ≤ nm → nm ≤ 12 →
      ∃ j : Nat,
        quarterLoop start today ny nm
            = monthOccurrence start
                (12 * ny + nm - 12 * start.y - start.m + 3 * j)
          ∧ ¬ lexLe (monthOccurrence start
                (12 * ny + nm - 12 * start.y - start.m + 3 * j)) today
          ∧ ∀ i : Nat, i < j →
              lexLe (monthOccurrence start
                (12 * ny + nm - 12 * start.y - start.m + 3 * i)) today := by
  intro ny nm
  induction ny, nm using quarterLoop.induct start today with
  | case1 ny nm hle hwrap ih =>
      intro hm1 hm2
      obtain ⟨j, hj1, hj2, hj3⟩ := ih (by omega) (by omega)
      refine ⟨j + 1, ?_, ?_, ?_⟩
      · rw [quarterLoop, dif_pos hle, dif_pos hwrap, hj1]
        exact monthOccurrence_congr start (by push_cast; omega)
      · rw [monthOccurrence_congr start
          (show (12 * ny + nm - 12 * start.y - start.m + 3 * ((j + 1 : Nat) : Int))
            = 12 * (ny + 1) + (nm + 3 - 12) - 12 * start.y - start.m + 3 * j
            from by push_cast; omega)]
        exact hj2
      · intro i hi
        rcases Nat.eq_zero_or_pos i with h0 | hpos
        · subst h0
          rw [show (12 * ny + nm - 12 * start.y - start.m + 3 * ((0 : Nat) : Int))
              = 12 * ny + nm - 12 * start.y - start.m from by omega]
          rw [monthOccurrence_pair start hm1 hm2]
          exact hle
        · have := hj3 (i - 1) (by omega)
          rw [show (12 * ny + nm - 12 * start.y - start.m + 3 * (i : Int))
              = 12 * (ny + 1) + (nm + 3 - 12) - 12 * start.y - start.m
                  + 3 * ((i - 1 : Nat) : Int)
              from by omega]
          exact this
  | case2 ny nm hle hwrap ih =>
      intro hm1 hm2
      obtain ⟨j, hj1, hj2, hj3⟩ := ih (by omega) (by omega)
      refine ⟨j + 1, ?_, ?_, ?_⟩
      · rw [quarterLoop, dif_pos hle, dif_neg hwrap, hj1]
        exact monthOccurrence_congr start (by push_cast; omega)
      · rw [monthOccurrence_congr start
          (show (12 * ny + nm - 12 * start.y - start.m + 3 * ((j + 1 : Nat) : Int))
            = 12 * ny + (nm + 3) - 12 * start.y - start.m + 3 * j
            from by push_cast; omega)]
        exact hj2
      · intro i hi
        rcases Nat.eq_zero_or_pos i with h0 | hpos
        · subst h0
          rw [show (12 * ny + nm - 12 * start.y - start.m + 3 * ((0 : Nat) : Int))
              = 12 * ny + nm - 12 * start.y - start.m from by omega]
          rw [monthOccurrence_pair start hm1 hm2]
          exact hle
        · have := hj3 (i - 1) (by omega)
          rw [show (12 * ny + nm - 12 * start.y - start.m + 3 * (i : Int))
              = 12 * ny + (nm + 3) - 12 * start.y - start.m
                  + 3 * ((i - 1 : Nat) : Int)
              from by omega]
          exact this
  | case3 ny nm hnle =>
      intro hm1 hm2
      refine ⟨0, ?_, ?_, fun i hi => absurd hi (by omega)⟩
      · rw [quarterLoop, dif_neg hnle]
        rw [show (12 * ny + nm - 12 * start.y - start.m + 3 * ((0 : Nat) : Int))
            = 12 * ny + nm - 12 * start.y - start.m from by omega]
        exact (monthOccurrence_pair start hm1 hm2).symm
      · rw [show (12 * ny + nm - 12 * start.y - start.m + 3 * ((0 : Nat) : Int))
            = 12 * ny + nm - 12 * start.y - start.m from by omega]
        rw [monthOccurrence_pair start hm1 hm2]
        exact hnle

theorem quarterly_spec (start today : Date) (hv : start.Valid)
    (hvt : today.Valid) (hge : ¬ lexLt today start) :
    IsNextOnSchedule start today "quarterly"
      (calculate_next_payment_date start today "quarterly") := by
  have hsy : 1 ≤ start.y := hv.1
  have hsm1 : 1 ≤ start.m := hv.2.1
  have hsm2 : start.m ≤ 12 := hv.2.2.1
  have htm1 : 1 ≤ today.m := hvt.2.1
  have htm2 : today.m ≤ 12 := hvt.2.2.1
  have hdm0 : 0 ≤ (today.y - start.y) * 12 + (today.m - start.m) := by
    have := lexLe_mi_le hsm1 hsm2 htm1 htm2 (lexLe_of_not_lt hge)
    omega
  rw [calculate_next_payment_date, if_neg hge]
  simp only [String.reduceEq, reduceIte]
  obtain ⟨j, hj1, hj2, hj3⟩ := quarterLoop_spec start today
    (start.y + (start.m + ((today.y - start.y) * 12 + (today.m - start.m)) / 3 * 3 - 1) / 12)
    ((start.m + ((today.y - start.y) * 12 + (today.m - start.m)) / 3 * 3 - 1) % 12 + 1)
    (by omega) (by omega)
  rw [hj1]
  set dm : Int := (today.y - start.y) * 12 + (today.m - start.m) with hdm
  have hQ : 12 * (start.y + (start.m + dm / 3 * 3 - 1) / 12)
      + ((start.m + dm / 3 * 3 - 1) % 12 + 1) - 12 * start.y - start.m
      = dm / 3 * 3 := by
    omega
  have hidx : ∀ i : Nat,
      12 * (start.y + (start.m + dm / 3 * 3 - 1) / 12)
        + ((start.m + dm / 3 * 3 - 1) % 12 + 1) - 12 * start.y - start.m + 3 * (i : Int)
      = dm / 3 * 3 + 3 * i := by
    intro i
    omega
  have hmires : ∀ i : Nat,
      12 * (monthOccurrence start (dm / 3 * 3 + 3 * (i : Int))).y
        + (monthOccurrence start (dm / 3 * 3 + 3 * (i : Int))).m
      = 12 * start.y + start.m + dm / 3 * 3 + 3 * i := by
    intro i
    have := monthOccurrence_mi start (dm / 3 * 3 + 3 * (i : Int))
    omega
  rw [monthOccurrence_congr start (hidx j)] at hj2 ⊢
  have hresv : (monthOccurrence start (dm / 3 * 3 + 3 * (j : Int))).Valid :=
    monthOccurrence_valid hv _ (by omega)
  have hbres := monthOccurrence_m_bounds start (dm / 3 * 3 + 3 * (j : Int))
  have hmiresj := hmires j
  refine ⟨⟨(dm / 3).toNat + j, ?_⟩, lexLt_of_not_le hj2, ?_⟩
  · rw [occurrence_quarterly]
    exact (monthOccurrence_congr start (by push_cast; omega)).symm
  · intro k hk
    rw [occurrence_quarterly] at hk ⊢
    have hbk := monthOccurrence_m_bounds start (3 * (k : Int))
    have hmik := monthOccurrence_mi start (3 * (k : Int))
    rcases Nat.lt_or_ge k ((dm / 3).toNat + j) with hc2 | hc2
    · rcases Int.lt_or_le (k : Int) (dm / 3) with hlo | hlo
      · refine absurd hk (fun hk' => lexLt_asymm hk'
          (lexLt_of_mi_lt hbk.1 hbk.2 htm1 htm2 ?_))
        have h3 : 3 * (k : Int) ≤ dm / 3 * 3 - 3 := by omega
        omega
      · have hi := hj3 (k - (dm / 3).toNat) (by omega)
        rw [monthOccurrence_congr start (hidx (k - (dm / 3).toNat))] at hi
        refine absurd hk (fun hk' => lexLe_lexLt_absurd ?_ hk')
        rw [monthOccurrence_congr start
          (show (3 * (k : Int)) = dm / 3 * 3 + 3 * ((k - (dm / 3).toNat : Nat) : Int)
            from by omega)] at hk' ⊢
        exact hi
    · rcases eq_or_lt_of_le hc2 with he | hlt
      · refine (lexLe_iff_lt_or_eq _ _).mpr (Or.inr ?_)
        refine monthOccurrence_congr start ?_
        have : ((dm / 3).toNat + j : Nat) = k := he
        omega
      · refine (lexLe_iff_lt_or_eq _ _).mpr (Or.inl
          (lexLt_of_mi_lt hbres.1 hbres.2 hbk.1 hbk.2 ?_))
        have h3 : dm / 3 * 3 + 3 * (j : Int) + 3 ≤ 3 * k := by omega
        omega

theorem daysInMonth_ge_28 (y m : Int) : 28 ≤ daysInMonth y m := by
  unfold daysInMonth
  split_ifs <;> omega

theorem yearClamp_y (start : Date) (ny : Int) : (yearClamp start ny).y = ny := by
  unfold yearClamp
  split_ifs <;> rfl

theorem yearClamp_m (start : Date) (ny : Int) :
    (yearClamp start ny).m = start.m := by
  unfold yearClamp
  split_ifs <;> rfl

theorem yearClamp_congr (start : Date) {ny ny' : Int} (h : ny = ny') :
    yearClamp start ny = yearClamp start ny' := by
  rw [h]

theorem yearClamp_self {start : Date} (hv : start.Valid) :
    yearClamp start start.y = start := by
  unfold yearClamp
  rw [if_pos hv.2.2.2.2]

theorem yearClamp_valid {start : Date} (hv : start.Valid) {ny : Int}
    (hy : 1 ≤ ny) : (yearClamp start ny).Valid := by
  have h28 := daysInMonth_ge_28 ny start.m
  have hd1 := hv.2.2.2.1
  unfold yearClamp
  split_ifs with hc
  · exact ⟨hy, hv.2.1, hv.2.2.1, hd1, hc⟩
  · refine ⟨hy, hv.2.1, hv.2.2.1, ?_, ?_⟩
    · show (1 : Int) ≤ 28
      omega
    · show (28 : Int) ≤ daysInMonth ny start.m
      omega

theorem lexLt_of_y_lt {a b : Date} (h : a.y < b.y) : lexLt a b := Or.inl h

theorem yearly_spec (start today : Date) (_hv : start.Valid)
    (_hvt : today.Valid) (hge : ¬ lexLt today start) :
    IsNextOnSchedule start today "yearly"
      (calculate_next_payment_date start today "yearly") := by
  have hyy : start.y ≤ today.y := lexLe_year (lexLe_of_not_lt hge)
  rw [calculate_next_payment_date, if_neg hge]
  simp only [String.reduceEq, reduceIte]
  rw [yearClamp_congr start
    (show start.y + (today.y - start.y) + 1 = today.y + 1 from by omega)]
  rw [yearClamp_congr start
    (show start.y + (today.y - start.y) = today.y from by omega)]
  by_cases hle : lexLe (yearClamp start today.y) today
  · rw [if_pos hle]
    refine ⟨⟨(today.y + 1 - start.y).toNat, ?_⟩, ?_, ?_⟩
    · rw [occurrence_yearly]
      exact (yearClamp_congr start (by omega)).symm
    · refine lexLt_of_y_lt ?_
      rw [yearClamp_y]
      omega
    · intro j hj
      rw [occurrence_yearly] at hj ⊢
      rcases lt_trichotomy (start.y + (j : Int)) today.y with hc | hc | hc
      · refine absurd hj (fun hj' => lexLt_asymm hj'
          (lexLt_of_y_lt ?_))
        rw [yearClamp_y]
        omega
      · refine absurd hj (fun hj' => lexLe_lexLt_absurd ?_ hj')
        rw [yearClamp_congr start hc]
        exact hle
      · rcases eq_or_lt_of_le (show today.y + 1 ≤ start.y + (j : Int) from by omega)
          with he | hlt
        · exact (lexLe_iff_lt_or_eq _ _).mpr
            (Or.inr (yearClamp_congr start he))
        · refine (lexLe_iff_lt_or_eq _ _).mpr (Or.inl (lexLt_of_y_lt ?_))
          rw [yearClamp_y, yearClamp_y]
          omega
  · rw [if_neg hle]
    refine ⟨⟨(today.y - start.y).toNat, ?_⟩, lexLt_of_not_le hle, ?_⟩
    · rw [occurrence_yearly]
      exact (yearClamp_congr start (by omega)).symm
    · intro j hj
      rw [occurrence_yearly] at hj ⊢
      rcases lt_trichotomy (start.y + (j : Int)) today.y with hc | hc | hc
      · refine absurd hj (fun hj' => lexLt_asymm hj'
          (lexLt_of_y_lt ?_))
        rw [yearClamp_y]
        omega
      · exact (lexLe_iff_lt_or_eq _ _).mpr
          (Or.inr (yearClamp_congr start hc.symm))
      · refine (lexLe_iff_lt_or_eq _ _).mpr (Or.inl (lexLt_of_y_lt ?_))
        rw [yearClamp_y, yearClamp_y]
        omega

theorem before_start_spec (start today : Date) (p : String) (hv : start.Valid)
    (hlt : lexLt today start)
    (hp : p = "daily" ∨ p = "weekly" ∨ p = "monthly" ∨ p = "quarterly"
      ∨ p = "yearly") :
    IsNextOnSchedule start today p
      (calculate_next_payment_date start today p) := by
  have hsm1 : 1 ≤ start.m := hv.2.1
  have hsm2 : start.m ≤ 12 := hv.2.2.1
  rw [calculate_next_payment_date, if_pos hlt]
  rcases hp with hp | hp | hp | hp | hp <;> subst hp
  · refine ⟨⟨0, ?_⟩, hlt, ?_⟩
    · rw [occurrence_daily]
      rfl
    · intro j hj
      rw [occurrence_daily]
      refine lexLe_of_toOrdinal_le hv (addDays_valid hv j) ?_
      rw [addDays_toOrdinal hv j]
      omega
  · refine ⟨⟨0, ?_⟩, hlt, ?_⟩
    · rw [occurrence_weekly]
      rfl
    · intro j hj
      rw [occurrence_weekly]
      refine lexLe_of_toOrdinal_le hv (addDays_valid hv (7 * j)) ?_
      rw [addDays_toOrdinal hv (7 * j)]
      omega
  · refine ⟨⟨0, ?_⟩, hlt, ?_⟩
    · rw [occurrence_monthly]
      exact ((monthOccurrence_congr start (by omega)).trans
        (monthOccurrence_zero hv)).symm
    · intro j hj
      rw [occurrence_monthly]
      rcases Nat.eq_zero_or_pos j with h0 | hpos
      · subst h0
        refine (lexLe_iff_lt_or_eq _ _).mpr (Or.inr ?_)
        exact ((monthOccurrence_congr start (by omega)).trans
          (monthOccurrence_zero hv)).symm
      · have hb := monthOccurrence_m_bounds start (j : Int)
        have hmi := monthOccurrence_mi start (j : Int)
        refine (lexLe_iff_lt_or_eq _ _).mpr (Or.inl
          (lexLt_of_mi_lt hsm1 hsm2 hb.1 hb.2 (by omega)))
  · refine ⟨⟨0, ?_⟩, hlt, ?_⟩
    · rw [occurrence_quarterly]
      exact ((monthOccurrence_congr start (by omega)).trans
        (monthOccurrence_zero hv)).symm
    · intro j hj
      rw [occurrence_quarterly]
      rcases Nat.eq_zero_or_pos j with h0 | hpos
      · subst h0
        refine (lexLe_iff_lt_or_eq _ _).mpr (Or.inr ?_)
        exact ((monthOccurrence_congr start (by omega)).trans
          (monthOccurrence_zero hv)).symm
      · have hb := monthOccurrence_m_bounds start (3 * (j : Int))
        have hmi := monthOccurrence_mi start (3 * (j : Int))
        refine (lexLe_iff_lt_or_eq _ _).mpr (Or.inl
          (lexLt_of_mi_lt hsm1 hsm2 hb.1 hb.2 (by omega)))
  · refine ⟨⟨0, ?_⟩, hlt, ?_⟩
    · rw [occurrence_yearly]
      exact ((yearClamp_congr start (by omega)).trans
        (yearClamp_self hv)).symm
    · intro j hj
      rw [occurrence_yearly]
      rcases Nat.eq_zero_or_pos j with h0 | hpos
      · subst h0
        refine (lexLe_iff_lt_or_eq _ _).mpr (Or.inr ?_)
        exact ((yearClamp_congr start (by omega)).trans
          (yearClamp_self hv)).symm
      · refine (lexLe_iff_lt_or_eq _ _).mpr (Or.inl (lexLt_of_y_lt ?_))
        rw [yearClamp_y]
        omega

theorem occurrence_valid {start : Date} (hv : start.Valid) (p : String)
    (k : Nat) : (occurrence start p k).Valid := by
  have hsy : 1 ≤ start.y := hv.1
  have hsm1 : 1 ≤ start.m := hv.2.1
  unfold occurrence
  split_ifs
  · exact addDays_valid hv k
  · exact addDays_valid hv (7 * k)
  · exact monthOccurrence_valid hv k (by omega)
  · exact monthOccurrence_valid hv (3 * k) (by omega)
  · exact yearClamp_valid hv (by omega)
  · exact hv

theorem calc_spec (start today : Date) (p : String) (hv : start.Valid)
    (hvt : today.Valid)
    (hp : p = "daily" ∨ p = "weekly" ∨ p = "monthly" ∨ p = "quarterly"
      ∨ p = "yearly") :
    IsNextOnSchedule start today p
      (calculate_next_payment_date start today p) := by
  by_cases hlt : lexLt today start
  · exact before_start_spec start today p hv hlt hp
  · rcases hp with hp | hp | hp | hp | hp <;> subst hp
    · exact daily_spec start today hv hvt hlt
    · exact weekly_spec start today hv hvt hlt
    · exact monthly_spec start today hv hvt hlt
    · exact quarterly_spec start today hv hvt hlt
    · exact yearly_spec start today hv hvt hlt

theorem calc_valid (start today : Date) (p : String) (hv : start.Valid)
    (hvt : today.Valid)
    (hp : p = "daily" ∨ p = "weekly" ∨ p = "monthly" ∨ p = "quarterly"
      ∨ p = "yearly") :
    (calculate_next_payment_date start today p).Valid := by
  obtain ⟨⟨k, hk⟩, -, -⟩ := calc_spec start today p hv hvt hp
  rw [hk]
  exact occurrence_valid hv p k

/-- C1: for every valid `start_date`, every period among daily, weekly,
monthly, quarterly, yearly, and every valid `today` with
`today >= start_date`, the date returned by `calculate_next_payment_date`
is strictly greater than `today` — never equal to it. -/
theorem C1_next_payment_strictly_future (start today : Date)
    (period : String) (hv : start.Valid) (hvt : today.Valid)
    (hp : period = "daily" ∨ period = "weekly" ∨ period = "monthly"
      ∨ period = "quarterly" ∨ period = "yearly")
    (_hge : lexLe start today) :
    lexLt today (calculate_next_payment_date start today period) :=
  (calc_spec start today period hv hvt hp).2.1

/-- Witness for C1 at `start = 2024-01-31`, `period = monthly`,
`today = 2024-02-29` (a day on which the candidate Feb 29 occurrence is
due, so the result rolls to March 31). -/
theorem C1_witness :
    (Date.mk 2024 1 31).Valid ∧ (Date.mk 2024 2 29).Valid ∧
      lexLe ⟨2024, 1, 31⟩ ⟨2024, 2, 29⟩ ∧
      lexLt ⟨2024, 2, 29⟩
        (calculate_next_payment_date ⟨2024, 1, 31⟩ ⟨2024, 2, 29⟩ "monthly") :=
  ⟨by decide, by decide, by decide,
    C1_next_payment_strictly_future ⟨2024, 1, 31⟩ ⟨2024, 2, 29⟩ "monthly"
      (by decide) (by decide) (Or.inr (Or.inr (Or.inl rfl))) (by decide)⟩

/-- C2: for every valid `start_date`, period and valid `today`, the date
returned by `calculate_next_payment_date` is the minimal date on the
recurrence schedule anchored at `start_date` that is strictly greater
than `today`: it lies on the schedule, exceeds `today`, and no
on-schedule date exceeding `today` is earlier. -/
theorem C2_next_payment_minimal_on_schedule (start today : Date)
    (period : String) (hv : start.Valid) (hvt : today.Valid)
    (hp : period = "daily" ∨ period = "weekly" ∨ period = "monthly"
      ∨ period = "quarterly" ∨ period = "yearly") :
    IsNextOnSchedule start today period
      (calculate_next_payment_date start today period) :=
  calc_spec start today period hv hvt hp

/-- Witness for C2 at the spec's quarterly example:
`start = 2024-11-15`, `period = quarterly`, `today = 2025-01-01`,
with the result pinned to `2025-02-15`. -/
theorem C2_witness :
    IsNextOnSchedule ⟨2024, 11, 15⟩ ⟨2025, 1, 1⟩ "quarterly"
        (calculate_next_payment_date ⟨2024, 11, 15⟩ ⟨2025, 1, 1⟩ "quarterly")
      ∧ calculate_next_payment_date ⟨2024, 11, 15⟩ ⟨2025, 1, 1⟩ "quarterly"
          = ⟨2025, 2, 15⟩ := by
  constructor
  · exact C2_next_payment_minimal_on_schedule ⟨2024, 11, 15⟩ ⟨2025, 1, 1⟩
      "quarterly" (by decide) (by decide)
      (Or.inr (Or.inr (Or.inr (Or.inl rfl))))
  · rw [calculate_next_payment_date, if_neg (by decide)]
    simp only [String.reduceEq, reduceIte]
    norm_num
    rw [quarterLoop]
    norm_num [clampDay, lexLe, daysInMonth, isLeap]
    rw [quarterLoop]
    norm_num [clampDay, lexLe, daysInMonth, isLeap]

theorem daysInMonth_feb (y : Int) :
    daysInMonth y 2 = if isLeap y then 29 else 28 := by
  simp [daysInMonth]

theorem yearClamp_feb29 {start : Date} (hm : start.m = 2) (hd : start.d = 29)
    (Y : Int) :
    (yearClamp start Y).m = 2 ∧
      (isLeap (yearClamp start Y).y = true → (yearClamp start Y).d = 29) ∧
      (isLeap (yearClamp start Y).y = false → (yearClamp start Y).d = 28) := by
  unfold yearClamp
  rw [hm, hd, daysInMonth_feb]
  by_cases hl : isLeap Y = true
  · rw [if_pos (by rw [if_pos hl])]
    refine ⟨rfl, fun _ => rfl, fun hfalse => ?_⟩
    rw [show (Date.mk Y 2 29).y = Y from rfl] at hfalse
    rw [hl] at hfalse
    exact absurd hfalse (by simp)
  · rw [if_neg (by rw [if_neg hl]; omega)]
    refine ⟨rfl, fun htrue => ?_, fun _ => rfl⟩
    rw [show (Date.mk Y 2 28).y = Y from rfl] at htrue
    exact absurd htrue hl

/-- C3: a yearly subscription whose `start_date` is February 29 never
makes `calculate_next_payment_date` fail (the embedding is total on it,
mirroring the `try/except ValueError` clamp): for any `today` the result
stays in February, its day is 29 when the landing year is a leap year
and is clamped to 28 when it is not. -/
theorem C3_feb29_yearly_clamps (start today : Date) (hv : start.Valid)
    (hm : start.m = 2) (hd : start.d = 29) :
    (calculate_next_payment_date start today "yearly").m = 2 ∧
      (isLeap (calculate_next_payment_date start today "yearly").y = true →
        (calculate_next_payment_date start today "yearly").d = 29) ∧
      (isLeap (calculate_next_payment_date start today "yearly").y = false →
        (calculate_next_payment_date start today "yearly").d = 28) := by
  rw [calculate_next_payment_date]
  by_cases hlt : lexLt today start
  · rw [if_pos hlt]
    have h := yearClamp_feb29 hm hd start.y
    rw [yearClamp_self hv] at h
    exact h
  · rw [if_neg hlt]
    simp only [String.reduceEq, reduceIte]
    by_cases hle :
        lexLe (yearClamp start (start.y + (today.y - start.y))) today
    · rw [if_pos hle]
      exact yearClamp_feb29 hm hd _
    · rw [if_neg hle]
      exact yearClamp_feb29 hm hd _

/-- Witness for C3 at the spec's example `start = 2020-02-29`,
`period = yearly`, `today = 2025-03-01`, with the result pinned to
`2026-02-28`. -/
theorem C3_witness :
    (Date.mk 2020 2 29).Valid ∧
      calculate_next_payment_date ⟨2020, 2, 29⟩ ⟨2025, 3, 1⟩ "yearly"
        = ⟨2026, 2, 28⟩ ∧
      ((calculate_next_payment_date ⟨2020, 2, 29⟩ ⟨2025, 3, 1⟩ "yearly").m = 2 ∧
        (isLeap (calculate_next_payment_date ⟨2020, 2, 29⟩ ⟨2025, 3, 1⟩
            "yearly").y = true →
          (calculate_next_payment_date ⟨2020, 2, 29⟩ ⟨2025, 3, 1⟩
            "yearly").d = 29) ∧
        (isLeap (calculate_next_payment_date ⟨2020, 2, 29⟩ ⟨2025, 3, 1⟩
            "yearly").y = false →
          (calculate_next_payment_date ⟨2020, 2, 29⟩ ⟨2025, 3, 1⟩
            "yearly").d = 28)) :=
  ⟨by decide, by decide,
    C3_feb29_yearly_clamps ⟨2020, 2, 29⟩ ⟨2025, 3, 1⟩ (by decide) rfl rfl⟩

/-- C8: for every valid `start_date`, every period of the closed enum and
every `today` with `today < start_date`, `calculate_next_payment_date`
returns `start_date` itself, unchanged. -/
theorem C8_before_start_returns_start (start today : Date) (period : String)
    (_hv : start.Valid)
    (_hp : period = "daily" ∨ period = "weekly" ∨ period = "monthly"
      ∨ period = "quarterly" ∨ period = "yearly")
    (hlt : lexLt today start) :
    calculate_next_payment_date start today period = start := by
  rw [calculate_next_payment_date, if_pos hlt]

/-- Witness for C8 at `start = 2025-01-01`, `today = 2024-12-31`,
`period = monthly`. -/
theorem C8_witness :
    lexLt ⟨2024, 12, 31⟩ ⟨2025, 1, 1⟩ ∧
      calculate_next_payment_date ⟨2025, 1, 1⟩ ⟨2024, 12, 31⟩ "monthly"
        = ⟨2025, 1, 1⟩ :=
  ⟨by decide,
    C8_before_start_returns_start ⟨2025, 1, 1⟩ ⟨2024, 12, 31⟩ "monthly"
      (by decide) (Or.inr (Or.inr (Or.inl rfl))) (by decide)⟩

/-- `NOTIFICATION_DAYS_BEFORE` from `config.py`. -/
def NOTIFICATION_DAYS_BEFORE : Int := 1

/-- The two notification kinds a subscription can trigger on a tick of
`check_and_send_notifications` in `notifications.py`. -/
inductive NotificationEvent where
  | paymentReminder : NotificationEvent
  | paymentDueToday : NotificationEvent
deriving DecidableEq, Repr

/-- The per-subscription decision of `check_and_send_notifications` in
`notifications.py`: compute the next payment date and the days left; at
`days_left == NOTIFICATION_DAYS_BEFORE` send a reminder, at
`days_left == 0` send the due-today notification, else nothing. Both
date computations happen on the same tick, hence the same `today`. -/
def check_and_send_notifications (start today : Date) (period : String) :
    Option NotificationEvent :=
  let next_payment := calculate_next_payment_date start today period
  let days_left := days_until_payment next_payment today
  if days_left = NOTIFICATION_DAYS_BEFORE then
    some NotificationEvent.paymentReminder
  else if days_left = 0 then some NotificationEvent.paymentDueToday
  else none

/-- C5: on any tick, for any subscription examined, the days-left value
computed from `calculate_next_payment_date` is at least 1, so the
`days_left == 0` branch never runs and a due-today notification is never
sent. -/
theorem C5_due_today_branch_unreachable (start today : Date)
    (period : String) (hv : start.Valid) (hvt : today.Valid)
    (hp : period = "daily" ∨ period = "weekly" ∨ period = "monthly"
      ∨ period = "quarterly" ∨ period = "yearly") :
    1 ≤ days_until_payment
        (calculate_next_payment_date start today period) today ∧
      check_and_send_notifications start today period
        ≠ some NotificationEvent.paymentDueToday := by
  have hgt : lexLt today (calculate_next_payment_date start today period) :=
    (calc_spec start today period hv hvt hp).2.1
  have hval := calc_valid start today period hv hvt hp
  have hord := toOrdinal_lt_of_lexLt hvt hval hgt
  have hd1 : 1 ≤ days_until_payment
      (calculate_next_payment_date start today period) today := by
    unfold days_until_payment
    omega
  refine ⟨hd1, ?_⟩
  unfold check_and_send_notifications
  dsimp only
  split_ifs with h1 h2
  · intro hc
    exact absurd (Option.some.inj hc) (by simp)
  · exact absurd h2 (by omega)
  · intro hc
    exact Option.noConfusion hc

/-- Witness for C5 at a daily subscription started 2024-06-01, checked
on 2024-06-10. -/
theorem C5_witness :
    1 ≤ days_until_payment
        (calculate_next_payment_date ⟨2024, 6, 1⟩ ⟨2024, 6, 10⟩ "daily")
        ⟨2024, 6, 10⟩ ∧
      check_and_send_notifications ⟨2024, 6, 1⟩ ⟨2024, 6, 10⟩ "daily"
        ≠ some NotificationEvent.paymentDueToday :=
  C5_due_today_branch_unreachable ⟨2024, 6, 1⟩ ⟨2024, 6, 10⟩ "daily"
    (by decide) (by decide) (Or.inl rfl)

/-- A subscription row as consumed by
`get_total_expenses_active_periods`: just the fields it reads. The SQL
`REAL` price is modelled as a rational number. -/
structure Subscription where
  price : Rat
  start_date : Date
  period : String

/-- The per-subscription elapsed-occurrence count `n` computed inside
`get_total_expenses_active_periods` in `database.py`, with `e` the end
of the active period (always `today` in the source). The `e < start`
guard (`continue`) yields 0, unknown periods fall to the `else` with
`n = 0`. -/
def elapsed_occurrences (start e : Date) (period : String) : Int :=
  if lexLt e start then 0
  else if period = "daily" then (e.toOrdinal - start.toOrdinal) + 1
  else if period = "weekly" then (e.toOrdinal - start.toOrdinal) / 7 + 1
  else if period = "monthly" then
    (if start.d ≤ e.d
      then (e.y - start.y) * 12 + (e.m - start.m) + 1
      else (e.y - start.y) * 12 + (e.m - start.m))
  else if period = "quarterly" then
    (if start.d ≤ e.d
      then ((e.y - start.y) * 12 + (e.m - start.m)) / 3 + 1
      else ((e.y - start.y) * 12 + (e.m - start.m)) / 3)
  else if period = "yearly" then
    (if start.m < e.m ∨ (start.m = e.m ∧ start.d ≤ e.d)
      then (e.y - start.y) + 1
      else e.y - start.y)
  else 0

/-- The amount one subscription adds to the total: `price * n` behind
the `if n > 0` guard. -/
def contribution (sub : Subscription) (today : Date) : Rat :=
  let n := elapsed_occurrences sub.start_date today sub.period
  if 0 < n then sub.price * (n : Rat) else 0

/-- `get_total_expenses_active_periods` from `database.py`: fold the
per-subscription contributions over the user's rows, in row order. -/
def get_total_expenses_active_periods (subs : List Subscription)
    (today : Date) : Rat :=
  subs.foldl (fun acc sub => acc + contribution sub today) 0

/-- C6: for a monthly subscription with `start_date <= end_date`, the
elapsed-occurrence count equals the month-difference between the two
dates, incremented by one exactly when the end day-of-month has reached
or passed the start day-of-month; the subscription contributes its price
times that count to the total. -/
theorem C6_monthly_elapsed_count (sub : Subscription) (today : Date)
    (hv : sub.start_date.Valid) (hvt : today.Valid)
    (hp : sub.period = "monthly") (hle : lexLe sub.start_date today) :
    elapsed_occurrences sub.start_date today sub.period
        = (today.y - sub.start_date.y) * 12 + (today.m - sub.start_date.m)
          + (if sub.start_date.d ≤ today.d then 1 else 0)
      ∧ 0 < elapsed_occurrences sub.start_date today sub.period
      ∧ contribution sub today
        = sub.price
          * ((elapsed_occurrences sub.start_date today sub.period : Int)
              : Rat) := by
  have hnlt : ¬ lexLt today sub.start_date := fun hc =>
    lexLe_lexLt_absurd hle hc
  have hsm1 : 1 ≤ sub.start_date.m := hv.2.1
  have hsm2 : sub.start_date.m ≤ 12 := hv.2.2.1
  have htm1 : 1 ≤ today.m := hvt.2.1
  have htm2 : today.m ≤ 12 := hvt.2.2.1
  have hmi := lexLe_mi_le hsm1 hsm2 htm1 htm2 hle
  have hcnt : elapsed_occurrences sub.start_date today sub.period
      = (today.y - sub.start_date.y) * 12 + (today.m - sub.start_date.m)
        + (if sub.start_date.d ≤ today.d then 1 else 0) := by
    unfold elapsed_occurrences
    rw [if_neg hnlt, hp]
    simp only [String.reduceEq, reduceIte]
    split_ifs <;> omega
  have hpos : 0 < elapsed_occurrences sub.start_date today sub.period := by
    rw [hcnt]
    have hdm : 0 ≤ (today.y - sub.start_date.y) * 12
        + (today.m - sub.start_date.m) := by omega
    rcases (lexLe_iff_lt_or_eq _ _).mp hle with hlt | heq
    · rcases hlt with hy | ⟨hy, hm | ⟨hm, hd⟩⟩
      · split_ifs <;> omega
      · split_ifs <;> omega
      · rw [if_pos (by omega)]
        omega
    · rw [heq]
      simp
  refine ⟨hcnt, hpos, ?_⟩
  unfold contribution
  rw [if_pos hpos]

/-- Witness for C6: a monthly subscription priced 100 started
2024-01-15, totalled on 2024-03-20 (month-difference 2, day reached, so
3 occurrences). -/
theorem C6_witness :
    (Date.mk 2024 1 15).Valid ∧ (Date.mk 2024 3 20).Valid ∧
      lexLe ⟨2024, 1, 15⟩ ⟨2024, 3, 20⟩ ∧
      (elapsed_occurrences
          (Subscription.mk 100 ⟨2024, 1, 15⟩ "monthly").start_date
          ⟨2024, 3, 20⟩ (Subscription.mk 100 ⟨2024, 1, 15⟩ "monthly").period
          = (2024 - 2024) * 12 + (3 - 1) + (if (15 : Int) ≤ 20 then 1 else 0)
        ∧ 0 < elapsed_occurrences ⟨2024, 1, 15⟩ ⟨2024, 3, 20⟩ "monthly"
        ∧ contribution (Subscription.mk 100 ⟨2024, 1, 15⟩ "monthly")
            ⟨2024, 3, 20⟩
          = 100 * ((elapsed_occurrences ⟨2024, 1, 15⟩ ⟨2024, 3, 20⟩ "monthly"
              : Int) : Rat)) :=
  ⟨by decide, by decide, by decide,
    C6_monthly_elapsed_count (Subscription.mk 100 ⟨2024, 1, 15⟩ "monthly")
      ⟨2024, 3, 20⟩ (by decide) (by decide) rfl (by decide)⟩

/-- C9: for any subscription and any period string, if the end date is
strictly before the start date, the elapsed-occurrence count is 0 and
the subscription contributes nothing to the total (prepending it to any
row list leaves the total unchanged). -/
theorem C9_end_before_start_contributes_nothing (sub : Subscription)
    (today : Date) (hlt : lexLt today sub.start_date) :
    elapsed_occurrences sub.start_date today sub.period = 0
      ∧ contribution sub today = 0
      ∧ ∀ rest : List Subscription,
          get_total_expenses_active_periods (sub :: rest) today
            = get_total_expenses_active_periods rest today := by
  have h0 : elapsed_occurrences sub.start_date today sub.period = 0 := by
    unfold elapsed_occurrences
    rw [if_pos hlt]
  have hc : contribution sub today = 0 := by
    unfold contribution
    rw [h0]
    simp
  refine ⟨h0, hc, fun rest => ?_⟩
  unfold get_total_expenses_active_periods
  simp [hc]

/-- Witness for C9: a yearly subscription starting 2030-01-01 totalled
on 2025-06-15. -/
theorem C9_witness :
    lexLt ⟨2025, 6, 15⟩ ⟨2030, 1, 1⟩ ∧
      (elapsed_occurrences ⟨2030, 1, 1⟩ ⟨2025, 6, 15⟩ "yearly" = 0
        ∧ contribution (Subscription.mk 50 ⟨2030, 1, 1⟩ "yearly")
            ⟨2025, 6, 15⟩ = 0
        ∧ ∀ rest : List Subscription,
            get_total_expenses_active_periods
                (Subscription.mk 50 ⟨2030, 1, 1⟩ "yearly" :: rest)
                ⟨2025, 6, 15⟩
              = get_total_expenses_active_periods rest ⟨2025, 6, 15⟩) :=
  ⟨by decide,
    C9_end_before_start_contributes_nothing
      (Subscription.mk 50 ⟨2030, 1, 1⟩ "yearly") ⟨2025, 6, 15⟩ (by decide)⟩

/-- ASCII whitespace as matched by Python's `str.strip()` (space, tab,
newline, carriage return, vertical tab, form feed). -/
def isSpaceChar (c : Char) : Bool :=
  c == ' ' || c == '\t' || c == '\n' || c == '\r' || c == '\x0b' || c == '\x0c'

/-- Python `str.strip()`: drop leading and trailing whitespace. -/
def pyStrip (s : String) : String :=
  String.mk (((s.data.dropWhile isSpaceChar).reverse.dropWhile
    isSpaceChar).reverse)

/-- The stored comment computed by `handle_comment` in `handlers.py`:
the message text is stripped, and a lone `-` maps to the empty string;
the result is what lands in the in-progress subscription data. -/
def handle_comment (text : String) : String :=
  let comment := pyStrip text
  if comment = "-" then "" else comment

/-- Counterexample to C7 as stated: the input `" x"` is neither `-` nor
stored verbatim — `handle_comment` stores the stripped `"x"`. -/
theorem C7_counterexample :
    " x" ≠ "-" ∧ handle_comment " x" = "x" ∧ handle_comment " x" ≠ " x" := by
  refine ⟨by decide, by decide, by decide⟩

/-- C7 (amended): the comment input is first stripped of surrounding
whitespace; if the stripped text is `-` (in particular for the input
`"-"` itself) the empty string is stored, and otherwise the stripped
text is stored unchanged. -/
theorem C7_comment_normalisation (text : String) :
    (handle_comment "-" = "") ∧
      (pyStrip text = "-" → handle_comment text = "") ∧
      (pyStrip text ≠ "-" → handle_comment text = pyStrip text) := by
  refine ⟨rfl, fun h => ?_, fun h => ?_⟩
  · unfold handle_comment
    rw [if_pos h]
  · unfold handle_comment
    rw [if_neg h]

/-- Witness for C7 at the input `"hello  "`. -/
theorem C7_witness :
    pyStrip "hello  " ≠ "-" ∧
      ((handle_comment "-" = "") ∧
        (pyStrip "hello  " = "-" → handle_comment "hello  " = "") ∧
        (pyStrip "hello  " ≠ "-" →
          handle_comment "hello  " = pyStrip "hello  ")) :=
  ⟨by decide, C7_comment_normalisation "hello  "⟩

/-- Numeric value of a decimal digit character. -/
def dval (c : Char) : Nat := c.toNat - 48

/-- The digit character for `k < 10`. -/
def digitChar (k : Nat) : Char := Char.ofNat (48 + k)

/-- Alternatives of the `%d` field regex of CPython `_strptime`
(`3[01]|[12]\d|0[1-9]|[1-9]`), in preference order; each entry is the
parsed value with the unconsumed input. -/
def dayAlts : List Char → List (Nat × List Char)
  | c1 :: c2 :: rest =>
      (if c1 = '3' ∧ (c2 = '0' ∨ c2 = '1') then [(30 + dval c2, rest)]
        else [])
      ++ (if (c1 = '1' ∨ c1 = '2') ∧ c2.isDigit then
            [(10 * dval c1 + dval c2, rest)] else [])
      ++ (if c1 = '0' ∧ ('1' ≤ c2 ∧ c2 ≤ '9') then [(dval c2, rest)]
        else [])
      ++ (if '1' ≤ c1 ∧ c1 ≤ '9' then [(dval c1, c2 :: rest)] else [])
  | [c1] => if '1' ≤ c1 ∧ c1 ≤ '9' then [(dval c1, [])] else []
  | [] => []

/-- Alternatives of the `%m` field regex of CPython `_strptime`
(`1[0-2]|0[1-9]|[1-9]`), in preference order. -/
def monthAlts : List Char → List (Nat × List Char)
  | c1 :: c2 :: rest =>
      (if c1 = '1' ∧ ('0' ≤ c2 ∧ c2 ≤ '2') then [(10 + dval c2, rest)]
        else [])
      ++ (if c1 = '0' ∧ ('1' ≤ c2 ∧ c2 ≤ '9') then [(dval c2, rest)]
        else [])
      ++ (if '1' ≤ c1 ∧ c1 ≤ '9' then [(dval c1, c2 :: rest)] else [])
  | [c1] => if '1' ≤ c1 ∧ c1 ≤ '9' then [(dval c1, [])] else []
  | [] => []

/-- The `%Y` field regex of CPython `_strptime`: exactly four digits. -/
def year4Alts : List Char → List (Nat × List Char)
  | c1 :: c2 :: c3 :: c4 :: rest =>
      if c1.isDigit ∧ c2.isDigit ∧ c3.isDigit ∧ c4.isDigit then
        [(1000 * dval c1 + 100 * dval c2 + 10 * dval c3 + dval c4, rest)]
      else []
  | _ => []

/-- The `%y` field regex of CPython `_strptime`: exactly two digits. -/
def year2Alts : List Char → List (Nat × List Char)
  | c1 :: c2 :: rest =>
      if c1.isDigit ∧ c2.isDigit then [(10 * dval c1 + dval c2, rest)]
      else []
  | _ => []

/-- Last stage of the three-field format match: the third field must
match and consume the whole remaining input (`strptime` rejects
trailing text). -/
def matchLast (a3 : List Char → List (Nat × List Char)) (v1 v2 : Nat)
    (s : List Char) : Option (Nat × Nat × Nat) :=
  (a3 s).findSome? fun p3 =>
    if p3.2 = [] then some (v1, v2, p3.1) else none

/-- Middle stage: the second field, a separator, then the last stage. -/
def matchSecond (a2 a3 : List Char → List (Nat × List Char)) (sep : Char)
    (v1 : Nat) (s : List Char) : Option (Nat × Nat × Nat) :=
  (a2 s).findSome? fun p2 =>
    match p2.2 with
    | c2 :: r2 => if c2 = sep then matchLast a3 v1 p2.1 r2 else none
    | [] => none

/-- Full-match of a three-field format `f1 sep f2 sep f3` against the
input, with regex-style backtracking: alternatives are tried in order
and a later alternative is used when the continuation fails. -/
def matchThree (a1 a2 a3 : List Char → List (Nat × List Char)) (sep : Char)
    (s : List Char) : Option (Nat × Nat × Nat) :=
  (a1 s).findSome? fun p1 =>
    match p1.2 with
    | c :: r1 => if c = sep then matchSecond a2 a3 sep p1.1 r1 else none
    | [] => none

/-- CPython `_strptime` century rule for `%y`: 00–68 become 2000–2068,
69–99 become 1969–1999. -/
def pivotYear (y : Nat) : Nat := if y ≤ 68 then 2000 + y else 1900 + y

/-- The `datetime.date` constructor's validation as run by `strptime`:
`None` models the `ValueError` that sends `parse_date_flexible` to the
next format. -/
def mkValidDate (y m d : Nat) : Option Date :=
  if (Date.mk y m d).Valid ∧ y ≤ 9999 then some ⟨y, m, d⟩ else none

/-- One `strptime` attempt with format `%Y-%m-%d`. -/
def tryYmd (s : List Char) : Option Date :=
  match matchThree year4Alts monthAlts dayAlts '-' s with
  | some (y, m, d) => mkValidDate y m d
  | none => none

/-- One `strptime` attempt with format `%d sep %m sep %Y`. -/
def tryDmy4 (sep : Char) (s : List Char) : Option Date :=
  match matchThree dayAlts monthAlts year4Alts sep s with
  | some (d, m, y) => mkValidDate y m d
  | none => none

/-- One `strptime` attempt with format `%d sep %m sep %y`, with the
century pivot applied to the two-digit year. -/
def tryDmy2 (sep : Char) (s : List Char) : Option Date :=
  match matchThree dayAlts monthAlts year2Alts sep s with
  | some (d, m, y) => mkValidDate (pivotYear y) m d
  | none => none

/-- The format cascade of `parse_date_flexible`, in source order:
`%Y-%m-%d`, `%d.%m.%Y`, `%d/%m/%Y`, `%d-%m-%Y`, `%d.%m.%y`, `%d/%m/%y`,
`%d-%m-%y`; the first format that parses wins. -/
def tryFormats (s : List Char) : Option Date :=
  match tryYmd s with
  | some dt => some dt
  | none =>
  match tryDmy4 '.' s with
  | some dt => some dt
  | none =>
  match tryDmy4 '/' s with
  | some dt => some dt
  | none =>
  match tryDmy4 '-' s with
  | some dt => some dt
  | none =>
  match tryDmy2 '.' s with
  | some dt => some dt
  | none =>
  match tryDmy2 '/' s with
  | some dt => some dt
  | none => tryDmy2 '-' s

/-- The whitespace removal of `parse_date_flexible`: `str.strip()`
followed by `re.sub(r'\s+', '', ...)` deletes every whitespace
character. -/
def removeSpaces (s : List Char) : List Char :=
  s.filter (fun c => ! isSpaceChar c)

/-- Two-digit zero-padded decimal rendering (`%m`, `%d`, `%y`). -/
def pad2 (n : Nat) : List Char := [digitChar (n / 10), digitChar (n % 10)]

/-- Four-digit zero-padded decimal rendering (`%Y` as documented for
`strftime`). -/
def pad4 (n : Nat) : List Char :=
  [digitChar (n / 1000), digitChar (n / 100 % 10), digitChar (n / 10 % 10),
    digitChar (n % 10)]

/-- `dt.strftime('%Y-%m-%d')`: canonical ISO rendering of a date. -/
def formatYmd (dt : Date) : List Char :=
  pad4 dt.y.toNat ++ '-' :: (pad2 dt.m.toNat ++ '-' :: pad2 dt.d.toNat)

/-- `parse_date_flexible` from `utils.py`: delete whitespace, try the
seven formats in order with CPython `strptime` semantics, apply the
`year < 100 → year + 2000` correction (the `dt.replace` cannot raise:
a year below 100 and that year plus 2000 agree on leapness), and render
back canonically; `none` is Python's `None`. -/
def parse_date_flexible (s : String) : Option String :=
  match tryFormats (removeSpaces s.data) with
  | none => none
  | some dt =>
      let dt2 := if dt.y < 100 then Date.mk (dt.y + 2000) dt.m dt.d else dt
      some (String.mk (formatYmd dt2))

theorem dval_digitChar {b : Nat} (hb : b ≤ 9) : dval (digitChar b) = b := by
  interval_cases b <;> decide

theorem digitChar_isDigit {b : Nat} (hb : b ≤ 9) :
    (digitChar b).isDigit = true := by
  interval_cases b <;> decide

theorem digitChar_eq_zero {b : Nat} (hb : b ≤ 9) :
    (digitChar b = '0') ↔ b = 0 := by
  interval_cases b <;> decide

theorem digitChar_eq_one {b : Nat} (hb : b ≤ 9) :
    (digitChar b = '1') ↔ b = 1 := by
  interval_cases b <;> decide

theorem digitChar_between19 {b : Nat} (hb : b ≤ 9) :
    ('1' ≤ digitChar b ∧ digitChar b ≤ '9') ↔ 1 ≤ b := by
  interval_cases b <;> decide

theorem digitChar_le_two {b : Nat} (hb : b ≤ 9) :
    ('0' ≤ digitChar b ∧ digitChar b ≤ '2') ↔ b ≤ 2 := by
  interval_cases b <;> decide

theorem digitChar_zero_or_one {b : Nat} (hb : b ≤ 9) :
    (digitChar b = '0' ∨ digitChar b = '1') ↔ b ≤ 1 := by
  interval_cases b <;> decide

theorem isSpaceChar_digitChar {b : Nat} (hb : b ≤ 9) :
    isSpaceChar (digitChar b) = false := by
  interval_cases b <;> decide

theorem sep_props {sep : Char}
    (hsep : sep = '.' ∨ sep = '/' ∨ sep = '-') :
    sep.isDigit = false ∧ isSpaceChar sep = false := by
  rcases hsep with h | h | h <;> subst h <;> decide

theorem digitChar_ne_sep {b : Nat} (hb : b ≤ 9) {sep : Char}
    (hsep : sep = '.' ∨ sep = '/' ∨ sep = '-') : digitChar b ≠ sep := by
  rcases hsep with h | h | h <;> subst h <;> interval_cases b <;> decide

theorem dayAlts_eval {a b : Nat} (ha : a ≤ 3) (hb : b ≤ 9)
    (hpos : 1 ≤ 10 * a + b) (hle : 10 * a + b ≤ 31) (r : List Char) :
    dayAlts (digitChar a :: digitChar b :: r)
      = if a = 0 then [(b, r)]
        else [(10 * a + b, r), (a, digitChar b :: r)] := by
  interval_cases a
  · have h1 : 1 ≤ b := by omega
    simp only [dayAlts]
    rw [if_neg (by rintro ⟨h, -⟩; exact absurd h (by decide)),
      if_neg (by rintro ⟨h, -⟩; rcases h with h | h <;> exact absurd h (by decide)),
      if_pos ⟨by decide, (digitChar_between19 hb).mpr h1⟩,
      if_neg (by intro h; exact absurd h (by decide)),
      dval_digitChar hb]
    simp
  · simp only [dayAlts]
    rw [if_neg (by rintro ⟨h, -⟩; exact absurd h (by decide)),
      if_pos ⟨Or.inl (by decide), digitChar_isDigit hb⟩,
      if_neg (by rintro ⟨h, -⟩; exact absurd h (by decide)),
      if_pos (by decide),
      dval_digitChar hb, show dval (digitChar 1) = 1 from by decide]
    simp
  · simp only [dayAlts]
    rw [if_neg (by rintro ⟨h, -⟩; exact absurd h (by decide)),
      if_pos ⟨Or.inr (by decide), digitChar_isDigit hb⟩,
      if_neg (by rintro ⟨h, -⟩; exact absurd h (by decide)),
      if_pos (by decide),
      dval_digitChar hb, show dval (digitChar 2) = 2 from by decide]
    simp
  · have h1 : b ≤ 1 := by omega
    simp only [dayAlts]
    rw [if_pos ⟨by decide, (digitChar_zero_or_one hb).mpr h1⟩,
      if_neg (by rintro ⟨h, -⟩; rcases h with h | h <;> exact absurd h (by decide)),
      if_neg (by rintro ⟨h, -⟩; exact absurd h (by decide)),
      if_pos (by decide),
      dval_digitChar hb, show dval (digitChar 3) = 3 from by decide]
    simp

theorem monthAlts_eval {p q : Nat} (hp : p ≤ 1) (hq : q ≤ 9)
    (hpos : 1 ≤ 10 * p + q) (hle : 10 * p + q ≤ 12) (r : List Char) :
    monthAlts (digitChar p :: digitChar q :: r)
      = if p = 0 then [(q, r)]
        else [(10 + q, r), (1, digitChar q :: r)] := by
  interval_cases p
  · have h1 : 1 ≤ q := by omega
    simp only [monthAlts]
    rw [if_neg (by rintro ⟨h, -⟩; exact absurd h (by decide)),
      if_pos ⟨by decide, (digitChar_between19 hq).mpr h1⟩,
      if_neg (by intro h; exact absurd h (by decide)),
      dval_digitChar hq]
    simp
  · have h2 : q ≤ 2 := by omega
    simp only [monthAlts]
    rw [if_pos ⟨by decide, (digitChar_le_two hq).mpr h2⟩,
      if_neg (by rintro ⟨h, -⟩; exact absurd h (by decide)),
      if_pos (by decide),
      dval_digitChar hq, show dval (digitChar 1) = 1 from by decide]
    simp

theorem year2Alts_eval {u v : Nat} (hu : u ≤ 9) (hv : v ≤ 9)
    (r : List Char) :
    year2Alts (digitChar u :: digitChar v :: r)
      = [(10 * u + v, r)] := by
  simp only [year2Alts]
  rw [if_pos ⟨digitChar_isDigit hu, digitChar_isDigit hv⟩,
    dval_digitChar hu, dval_digitChar hv]

theorem matchLast_year2 (v1 v2 : Nat) {u v : Nat} (hu : u ≤ 9)
    (hv : v ≤ 9) :
    matchLast year2Alts v1 v2 (digitChar u :: digitChar v :: [])
      = some (v1, v2, 10 * u + v) := by
  unfold matchLast
  rw [year2Alts_eval hu hv]
  simp [List.findSome?]

theorem matchLast_year4_two (v1 v2 : Nat) (c1 c2 : Char) :
    matchLast year4Alts v1 v2 [c1, c2] = none := rfl

theorem matchLast_day (v1 v2 : Nat) {a b : Nat} (ha : a ≤ 3) (hb : b ≤ 9)
    (hpos : 1 ≤ 10 * a + b) (hle : 10 * a + b ≤ 31) :
    matchLast dayAlts v1 v2 (digitChar a :: digitChar b :: [])
      = some (v1, v2, 10 * a + b) := by
  unfold matchLast
  rw [dayAlts_eval ha hb hpos hle]
  by_cases h0 : a = 0
  · subst h0
    simp [List.findSome?]
  · rw [if_neg h0]
    simp [List.findSome?]

theorem matchSecond_my2 (v1 : Nat) {month y2 : Nat} {sep : Char}
    (hm1 : 1 ≤ month) (hm2 : month ≤ 12) (hy : y2 ≤ 99)
    (_hsep : sep = '.' ∨ sep = '/' ∨ sep = '-') :
    matchSecond monthAlts year2Alts sep v1
        (pad2 month ++ sep :: pad2 y2)
      = some (v1, month, y2) := by
  obtain ⟨p, q, hp, hq, rfl⟩ : ∃ p q, p ≤ 1 ∧ q ≤ 9 ∧ month = 10 * p + q :=
    ⟨month / 10, month % 10, by omega, by omega, by omega⟩
  obtain ⟨u, v, hu, hv, rfl⟩ : ∃ u v, u ≤ 9 ∧ v ≤ 9 ∧ y2 = 10 * u + v :=
    ⟨y2 / 10, y2 % 10, by omega, by omega, by omega⟩
  have e3 : (10 * p + q) / 10 = p := by omega
  have e4 : (10 * p + q) % 10 = q := by omega
  have e5 : (10 * u + v) / 10 = u := by omega
  have e6 : (10 * u + v) % 10 = v := by omega
  unfold matchSecond
  simp only [pad2, e3, e4, e5, e6, List.cons_append, List.nil_append]
  rw [monthAlts_eval hp hq (by omega) (by omega)]
  by_cases h0 : p = 0
  · subst h0
    simp only [if_pos rfl, List.findSome?_cons]
    rw [show (10 : Nat) * 0 + q = q from by omega]
    simp [matchLast_year2 v1 q hu hv]
  · rw [if_neg h0]
    simp only [List.findSome?_cons]
    simp [matchLast_year2 v1 (10 + q) hu hv]
    omega

theorem matchSecond_my4_none (v1 : Nat) {month y2 : Nat} {sep : Char}
    (hm1 : 1 ≤ month) (hm2 : month ≤ 12) (hy : y2 ≤ 99)
    (hsep : sep = '.' ∨ sep = '/' ∨ sep = '-') :
    matchSecond monthAlts year4Alts sep v1
        (pad2 month ++ sep :: pad2 y2)
      = none := by
  obtain ⟨p, q, hp, hq, rfl⟩ : ∃ p q, p ≤ 1 ∧ q ≤ 9 ∧ month = 10 * p + q :=
    ⟨month / 10, month % 10, by omega, by omega, by omega⟩
  obtain ⟨u, v, hu, hv, rfl⟩ : ∃ u v, u ≤ 9 ∧ v ≤ 9 ∧ y2 = 10 * u + v :=
    ⟨y2 / 10, y2 % 10, by omega, by omega, by omega⟩
  have e3 : (10 * p + q) / 10 = p := by omega
  have e4 : (10 * p + q) % 10 = q := by omega
  have e5 : (10 * u + v) / 10 = u := by omega
  have e6 : (10 * u + v) % 10 = v := by omega
  unfold matchSecond
  simp only [pad2, e3, e4, e5, e6, List.cons_append, List.nil_append]
  rw [monthAlts_eval hp hq (by omega) (by omega)]
  by_cases h0 : p = 0
  · subst h0
    simp only [if_pos rfl, List.findSome?_cons]
    simp [matchLast_year4_two]
  · rw [if_neg h0]
    simp only [List.findSome?_cons]
    simp [matchLast_year4_two, digitChar_ne_sep hq hsep]

theorem matchSecond_mday (v1 : Nat) {month day : Nat}
    (hm1 : 1 ≤ month) (hm2 : month ≤ 12) (hd1 : 1 ≤ day) (hd2 : day ≤ 31) :
    matchSecond monthAlts dayAlts '-' v1 (pad2 month ++ '-' :: pad2 day)
      = some (v1, month, day) := by
  obtain ⟨p, q, hp, hq, rfl⟩ : ∃ p q, p ≤ 1 ∧ q ≤ 9 ∧ month = 10 * p + q :=
    ⟨month / 10, month % 10, by omega, by omega, by omega⟩
  obtain ⟨a, b, ha, hb, rfl⟩ : ∃ a b, a ≤ 3 ∧ b ≤ 9 ∧ day = 10 * a + b :=
    ⟨day / 10, day % 10, by omega, by omega, by omega⟩
  have e3 : (10 * p + q) / 10 = p := by omega
  have e4 : (10 * p + q) % 10 = q := by omega
  have e5 : (10 * a + b) / 10 = a := by omega
  have e6 : (10 * a + b) % 10 = b := by omega
  unfold matchSecond
  simp only [pad2, e3, e4, e5, e6, List.cons_append, List.nil_append]
  rw [monthAlts_eval hp hq (by omega) (by omega)]
  by_cases h0 : p = 0
  · subst h0
    simp only [if_pos rfl, List.findSome?_cons]
    rw [show (10 : Nat) * 0 + q = q from by omega]
    simp [matchLast_day v1 q ha hb (by omega) (by omega)]
  · rw [if_neg h0]
    simp only [List.findSome?_cons]
    simp [matchLast_day v1 (10 + q) ha hb (by omega) (by omega)]
    omega

theorem year4Alts_eval {w x u v : Nat} (hw : w ≤ 9) (hx : x ≤ 9)
    (hu : u ≤ 9) (hv : v ≤ 9) (r : List Char) :
    year4Alts (digitChar w :: digitChar x :: digitChar u :: digitChar v :: r)
      = [(1000 * w + 100 * x + 10 * u + v, r)] := by
  simp only [year4Alts]
  rw [if_pos ⟨digitChar_isDigit hw, digitChar_isDigit hx,
    digitChar_isDigit hu, digitChar_isDigit hv⟩,
    dval_digitChar hw, dval_digitChar hx, dval_digitChar hu,
    dval_digitChar hv]

theorem year4Alts_nondigit3 (c1 c2 c3 : Char) (r : List Char)
    (h : c3.isDigit = false) : year4Alts (c1 :: c2 :: c3 :: r) = [] := by
  cases r with
  | nil => rfl
  | cons c4 r2 =>
      simp only [year4Alts]
      rw [if_neg]
      rintro ⟨-, -, h3, -⟩
      rw [h] at h3
      exact absurd h3 (by simp)

theorem matchThree_empty_first
    (a1 a2 a3 : List Char → List (Nat × List Char)) (sep : Char)
    (s : List Char) (h : a1 s = []) :
    matchThree a1 a2 a3 sep s = none := by
  unfold matchThree
  rw [h]
  rfl

theorem matchThree_dmy2 {day month y2 : Nat} {sep : Char}
    (hd1 : 1 ≤ day) (hd2 : day ≤ 31) (hm1 : 1 ≤ month) (hm2 : month ≤ 12)
    (hy : y2 ≤ 99) (hsep : sep = '.' ∨ sep = '/' ∨ sep = '-') :
    matchThree dayAlts monthAlts year2Alts sep
        (pad2 day ++ sep :: (pad2 month ++ sep :: pad2 y2))
      = some (day, month, y2) := by
  obtain ⟨a, b, ha, hb, rfl⟩ : ∃ a b, a ≤ 3 ∧ b ≤ 9 ∧ day = 10 * a + b :=
    ⟨day / 10, day % 10, by omega, by omega, by omega⟩
  have e1 : (10 * a + b) / 10 = a := by omega
  have e2 : (10 * a + b) % 10 = b := by omega
  rw [show pad2 (10 * a + b) = [digitChar a, digitChar b] from by
    simp only [pad2, e1, e2]]
  unfold matchThree
  simp only [List.cons_append, List.nil_append]
  rw [dayAlts_eval ha hb (by omega) (by omega)]
  by_cases h0 : a = 0
  · subst h0
    simp only [if_pos rfl, List.findSome?_cons]
    rw [show (10 : Nat) * 0 + b = b from by omega]
    simp [matchSecond_my2 b hm1 hm2 hy hsep]
  · rw [if_neg h0]
    simp only [List.findSome?_cons]
    simp [matchSecond_my2 (10 * a + b) hm1 hm2 hy hsep]

theorem matchThree_dmy4_none {day month y2 : Nat} {sep : Char}
    (hd1 : 1 ≤ day) (hd2 : day ≤ 31) (hm1 : 1 ≤ month) (hm2 : month ≤ 12)
    (hy : y2 ≤ 99) (hsep : sep = '.' ∨ sep = '/' ∨ sep = '-') :
    matchThree dayAlts monthAlts year4Alts sep
        (pad2 day ++ sep :: (pad2 month ++ sep :: pad2 y2))
      = none := by
  obtain ⟨a, b, ha, hb, rfl⟩ : ∃ a b, a ≤ 3 ∧ b ≤ 9 ∧ day = 10 * a + b :=
    ⟨day / 10, day % 10, by omega, by omega, by omega⟩
  have e1 : (10 * a + b) / 10 = a := by omega
  have e2 : (10 * a + b) % 10 = b := by omega
  rw [show pad2 (10 * a + b) = [digitChar a, digitChar b] from by
    simp only [pad2, e1, e2]]
  unfold matchThree
  simp only [List.cons_append, List.nil_append]
  rw [dayAlts_eval ha hb (by omega) (by omega)]
  by_cases h0 : a = 0
  · subst h0
    simp only [if_pos rfl, List.findSome?_cons]
    simp [matchSecond_my4_none b hm1 hm2 hy hsep]
  · rw [if_neg h0]
    simp only [List.findSome?_cons]
    simp [matchSecond_my4_none (10 * a + b) hm1 hm2 hy hsep,
      matchSecond_my4_none a hm1 hm2 hy hsep,
      digitChar_ne_sep hb hsep]

theorem matchThree_sep_mismatch {day : Nat} {sep sep2 : Char}
    (a2 a3 : List Char → List (Nat × List Char))
    (hd1 : 1 ≤ day) (hd2 : day ≤ 31)
    (hsep2 : sep2 = '.' ∨ sep2 = '/' ∨ sep2 = '-') (hne : sep ≠ sep2)
    (r : List Char) :
    matchThree dayAlts a2 a3 sep2 (pad2 day ++ sep :: r) = none := by
  obtain ⟨a, b, ha, hb, rfl⟩ : ∃ a b, a ≤ 3 ∧ b ≤ 9 ∧ day = 10 * a + b :=
    ⟨day / 10, day % 10, by omega, by omega, by omega⟩
  have e1 : (10 * a + b) / 10 = a := by omega
  have e2 : (10 * a + b) % 10 = b := by omega
  rw [show pad2 (10 * a + b) = [digitChar a, digitChar b] from by
    simp only [pad2, e1, e2]]
  unfold matchThree
  simp only [List.cons_append, List.nil_append]
  rw [dayAlts_eval ha hb (by omega) (by omega)]
  by_cases h0 : a = 0
  · subst h0
    simp [List.findSome?_cons, hne]
  · rw [if_neg h0]
    simp [List.findSome?_cons, hne, digitChar_ne_sep hb hsep2]

theorem matchThree_Ymd {y month day : Nat} (hy : y ≤ 9999)
    (hm1 : 1 ≤ month) (hm2 : month ≤ 12) (hd1 : 1 ≤ day) (hd2 : day ≤ 31) :
    matchThree year4Alts monthAlts dayAlts '-'
        (pad4 y ++ '-' :: (pad2 month ++ '-' :: pad2 day))
      = some (y, month, day) := by
  obtain ⟨w, x, u, v, hw, hx, hu, hv, rfl⟩ :
      ∃ w x u v, w ≤ 9 ∧ x ≤ 9 ∧ u ≤ 9 ∧ v ≤ 9 ∧
        y = 1000 * w + 100 * x + 10 * u + v :=
    ⟨y / 1000, y / 100 % 10, y / 10 % 10, y % 10,
      by omega, by omega, by omega, by omega, by omega⟩
  have e1 : (1000 * w + 100 * x + 10 * u + v) / 1000 = w := by omega
  have e2 : (1000 * w + 100 * x + 10 * u + v) / 100 % 10 = x := by omega
  have e3 : (1000 * w + 100 * x + 10 * u + v) / 10 % 10 = u := by omega
  have e4 : (1000 * w + 100 * x + 10 * u + v) % 10 = v := by omega
  rw [show pad4 (1000 * w + 100 * x + 10 * u + v)
      = [digitChar w, digitChar x, digitChar u, digitChar v] from by
    simp only [pad4, e1, e2, e3, e4]]
  unfold matchThree
  simp only [List.cons_append, List.nil_append]
  rw [year4Alts_eval hw hx hu hv]
  simp [matchSecond_mday (1000 * w + 100 * x + 10 * u + v) hm1 hm2 hd1 hd2]

theorem tryYmd_canonical {y month day : Nat} (hy : y ≤ 9999)
    (hm1 : 1 ≤ month) (hm2 : month ≤ 12) (hd1 : 1 ≤ day) (hd2 : day ≤ 31) :
    tryYmd (pad4 y ++ '-' :: (pad2 month ++ '-' :: pad2 day))
      = mkValidDate y month day := by
  unfold tryYmd
  rw [matchThree_Ymd hy hm1 hm2 hd1 hd2]

theorem tryYmd_dmy_none {day : Nat} {sep : Char} (hd : day ≤ 99)
    (hsep : sep = '.' ∨ sep = '/' ∨ sep = '-') (r : List Char) :
    tryYmd (pad2 day ++ sep :: r) = none := by
  obtain ⟨a, b, ha, hb, rfl⟩ : ∃ a b, a ≤ 9 ∧ b ≤ 9 ∧ day = 10 * a + b :=
    ⟨day / 10, day % 10, by omega, by omega, by omega⟩
  have e1 : (10 * a + b) / 10 = a := by omega
  have e2 : (10 * a + b) % 10 = b := by omega
  rw [show pad2 (10 * a + b) = [digitChar a, digitChar b] from by
    simp only [pad2, e1, e2]]
  unfold tryYmd
  rw [matchThree_empty_first]
  simp only [List.cons_append, List.nil_append]
  exact year4Alts_nondigit3 _ _ _ _ (sep_props hsep).1

theorem tryDmy4_none {day month y2 : Nat} {sep sep2 : Char}
    (hd1 : 1 ≤ day) (hd2 : day ≤ 31) (hm1 : 1 ≤ month) (hm2 : month ≤ 12)
    (hy : y2 ≤ 99) (hsep : sep = '.' ∨ sep = '/' ∨ sep = '-')
    (hsep2 : sep2 = '.' ∨ sep2 = '/' ∨ sep2 = '-') :
    tryDmy4 sep2 (pad2 day ++ sep :: (pad2 month ++ sep :: pad2 y2))
      = none := by
  unfold tryDmy4
  by_cases he : sep2 = sep
  · subst he
    rw [matchThree_dmy4_none hd1 hd2 hm1 hm2 hy hsep2]
  · rw [matchThree_sep_mismatch monthAlts year4Alts hd1 hd2 hsep2
      (fun hc => he hc.symm)]

theorem tryDmy2_mismatch {day : Nat} {sep sep2 : Char}
    (hd1 : 1 ≤ day) (hd2 : day ≤ 31)
    (hsep2 : sep2 = '.' ∨ sep2 = '/' ∨ sep2 = '-') (hne : sep ≠ sep2)
    (r : List Char) :
    tryDmy2 sep2 (pad2 day ++ sep :: r) = none := by
  unfold tryDmy2
  rw [matchThree_sep_mismatch monthAlts year2Alts hd1 hd2 hsep2 hne]

theorem tryDmy2_success {day month y2 : Nat} {sep : Char}
    (hd1 : 1 ≤ day) (hd2 : day ≤ 31) (hm1 : 1 ≤ month) (hm2 : month ≤ 12)
    (hy : y2 ≤ 99) (hsep : sep = '.' ∨ sep = '/' ∨ sep = '-') :
    tryDmy2 sep (pad2 day ++ sep :: (pad2 month ++ sep :: pad2 y2))
      = mkValidDate (pivotYear y2) month day := by
  unfold tryDmy2
  rw [matchThree_dmy2 hd1 hd2 hm1 hm2 hy hsep]

theorem tryFormats_dmy2 {day month y2 : Nat} {sep : Char}
    (hd1 : 1 ≤ day) (hd2 : day ≤ 31) (hm1 : 1 ≤ month) (hm2 : month ≤ 12)
    (hy : y2 ≤ 99) (hsep : sep = '.' ∨ sep = '/' ∨ sep = '-') :
    tryFormats (pad2 day ++ sep :: (pad2 month ++ sep :: pad2 y2))
      = mkValidDate (pivotYear y2) month day := by
  have hymd := tryYmd_dmy_none (show day ≤ 99 from by omega) hsep
    (pad2 month ++ sep :: pad2 y2)
  have h4d := tryDmy4_none hd1 hd2 hm1 hm2 hy hsep (Or.inl rfl)
  have h4s := tryDmy4_none hd1 hd2 hm1 hm2 hy hsep (Or.inr (Or.inl rfl))
  have h4h := tryDmy4_none hd1 hd2 hm1 hm2 hy hsep (Or.inr (Or.inr rfl))
  have h2s := tryDmy2_success hd1 hd2 hm1 hm2 hy hsep
  unfold tryFormats
  rcases hsep with he | he | he <;> subst he
  · have m1 := tryDmy2_mismatch hd1 hd2 (Or.inr (Or.inl rfl))
      (show '.' ≠ '/' from by decide) (pad2 month ++ '.' :: pad2 y2)
    have m2 := tryDmy2_mismatch hd1 hd2 (Or.inr (Or.inr rfl))
      (show '.' ≠ '-' from by decide) (pad2 month ++ '.' :: pad2 y2)
    simp only [hymd, h4d, h4s, h4h, h2s, m1, m2]
    all_goals cases mkValidDate (pivotYear y2) month day <;> rfl
  · have m0 := tryDmy2_mismatch hd1 hd2 (Or.inl rfl)
      (show '/' ≠ '.' from by decide) (pad2 month ++ '/' :: pad2 y2)
    have m2 := tryDmy2_mismatch hd1 hd2 (Or.inr (Or.inr rfl))
      (show '/' ≠ '-' from by decide) (pad2 month ++ '/' :: pad2 y2)
    simp only [hymd, h4d, h4s, h4h, h2s, m0, m2]
    all_goals cases mkValidDate (pivotYear y2) month day <;> rfl
  · have m0 := tryDmy2_mismatch hd1 hd2 (Or.inl rfl)
      (show '-' ≠ '.' from by decide) (pad2 month ++ '-' :: pad2 y2)
    have m1 := tryDmy2_mismatch hd1 hd2 (Or.inr (Or.inl rfl))
      (show '-' ≠ '/' from by decide) (pad2 month ++ '-' :: pad2 y2)
    simp only [hymd, h4d, h4s, h4h, h2s, m0, m1]

theorem removeSpaces_pad2_sep {n : Nat} (hn : n ≤ 99) {sep : Char}
    (hs : isSpaceChar sep = false) (r : List Char) :
    removeSpaces (pad2 n ++ sep :: r) = pad2 n ++ sep :: removeSpaces r := by
  have h1 := isSpaceChar_digitChar (show n / 10 ≤ 9 from by omega)
  have h2 := isSpaceChar_digitChar (show n % 10 ≤ 9 from by omega)
  simp [removeSpaces, pad2, List.filter, h1, h2, hs]

theorem removeSpaces_pad2 {n : Nat} (hn : n ≤ 99) :
    removeSpaces (pad2 n) = pad2 n := by
  have h1 := isSpaceChar_digitChar (show n / 10 ≤ 9 from by omega)
  have h2 := isSpaceChar_digitChar (show n % 10 ≤ 9 from by omega)
  simp [removeSpaces, pad2, List.filter, h1, h2]

theorem removeSpaces_pad4_sep {n : Nat} (hn : n ≤ 9999) {sep : Char}
    (hs : isSpaceChar sep = false) (r : List Char) :
    removeSpaces (pad4 n ++ sep :: r) = pad4 n ++ sep :: removeSpaces r := by
  have h1 := isSpaceChar_digitChar (show n / 1000 ≤ 9 from by omega)
  have h2 := isSpaceChar_digitChar (show n / 100 % 10 ≤ 9 from by omega)
  have h3 := isSpaceChar_digitChar (show n / 10 % 10 ≤ 9 from by omega)
  have h4 := isSpaceChar_digitChar (show n % 10 ≤ 9 from by omega)
  simp [removeSpaces, pad4, List.filter, h1, h2, h3, h4, hs]

theorem pivotYear_ge (y : Nat) : 1900 ≤ pivotYear y := by
  unfold pivotYear
  split_ifs <;> omega

theorem pivotYear_le {y : Nat} (h : y ≤ 99) : pivotYear y ≤ 2068 := by
  unfold pivotYear
  split_ifs <;> omega

/-- Counterexample to C4 as stated: the two-digit year `99` does not
mean `2099` — CPython's `strptime` century pivot maps it to `1999`, and
the `year < 100` correction in `parse_date_flexible` never fires for
`%y` (its years are always at least 1969). -/
theorem C4_counterexample :
    parse_date_flexible "01.06.99" = some "1999-06-01" ∧
      parse_date_flexible "01.06.99" ≠ some "2099-06-01" := by
  refine ⟨by decide, by decide⟩

/-- C4 (amended): a date string `DD sep MM sep YY` in any of the
two-digit-year formats (separators `.`, `/`, `-`) parses to the
canonical string of the date `(pivotYear YY, MM, DD)`, where
`pivotYear` maps `00–68` to `2000–2068` and `69–99` to `1969–1999`
(CPython's `strptime` century rule) — not always to `2000 + YY`. -/
theorem C4_two_digit_year_pivot (day month yy : Nat) (sep : Char)
    (hsep : sep = '.' ∨ sep = '/' ∨ sep = '-')
    (hm1 : 1 ≤ month) (hm2 : month ≤ 12) (hyy : yy ≤ 99) (hd1 : 1 ≤ day)
    (hd2 : (day : Int) ≤ daysInMonth (pivotYear yy) month) :
    parse_date_flexible
        (String.mk (pad2 day ++ sep :: (pad2 month ++ sep :: pad2 yy)))
      = some (String.mk (formatYmd ⟨pivotYear yy, month, day⟩)) := by
  have hd31 : day ≤ 31 := by
    have := daysInMonth_le_31 ((pivotYear yy : Nat) : Int) (month : Int)
    omega
  have hpy1 := pivotYear_ge yy
  have hpy2 := pivotYear_le hyy
  unfold parse_date_flexible
  rw [show (String.mk (pad2 day ++ sep :: (pad2 month ++ sep :: pad2 yy))).data
      = pad2 day ++ sep :: (pad2 month ++ sep :: pad2 yy) from rfl]
  rw [removeSpaces_pad2_sep (by omega) (sep_props hsep).2,
    removeSpaces_pad2_sep (by omega) (sep_props hsep).2,
    removeSpaces_pad2 (by omega)]
  rw [tryFormats_dmy2 hd1 hd31 hm1 hm2 hyy hsep]
  rw [show mkValidDate (pivotYear yy) month day
      = some ⟨pivotYear yy, month, day⟩ from by
    unfold mkValidDate
    rw [if_pos]
    refine ⟨⟨by push_cast; omega, by push_cast; omega, by push_cast; omega,
      by push_cast; omega, hd2⟩, by omega⟩]
  have hnc : ¬ ((⟨pivotYear yy, month, day⟩ : Date).y < 100) := by
    show ¬ ((pivotYear yy : Int) < 100)
    omega
  simp only [hnc, if_false, reduceIte]

/-- Witness for C4 at `DD = 01`, `MM = 06`, `YY = 99`, separator `.`
(the pivot maps 99 to 1999). -/
theorem C4_witness :
    ((1 : Nat) ≤ 6 ∧ (6 : Nat) ≤ 12 ∧ (99 : Nat) ≤ 99 ∧ (1 : Nat) ≤ 1 ∧
        ((1 : Nat) : Int) ≤ daysInMonth (pivotYear 99) 6) ∧
      parse_date_flexible
          (String.mk (pad2 1 ++ '.' :: (pad2 6 ++ '.' :: pad2 99)))
        = some (String.mk (formatYmd ⟨pivotYear 99, 6, 1⟩)) :=
  ⟨⟨by decide, by decide, by decide, by decide, by decide⟩,
    C4_two_digit_year_pivot 1 6 99 '.' (Or.inl rfl) (by decide) (by decide)
      (by decide) (by decide) (by decide)⟩

theorem mkValidDate_some {y m d : Nat} {dt : Date}
    (h : mkValidDate y m d = some dt) : dt.Valid ∧ dt.y ≤ 9999 := by
  unfold mkValidDate at h
  split_ifs at h with hc
  · cases h
    refine ⟨hc.1, ?_⟩
    show ((y : Nat) : Int) ≤ 9999
    exact_mod_cast hc.2

theorem tryYmd_some {s : List Char} {dt : Date} (h : tryYmd s = some dt) :
    dt.Valid ∧ dt.y ≤ 9999 := by
  unfold tryYmd at h
  split at h
  · rename_i y m d heq
    exact mkValidDate_some h
  · exact Option.noConfusion h

theorem tryDmy4_some {sep : Char} {s : List Char} {dt : Date}
    (h : tryDmy4 sep s = some dt) : dt.Valid ∧ dt.y ≤ 9999 := by
  unfold tryDmy4 at h
  split at h
  · rename_i d m y heq
    exact mkValidDate_some h
  · exact Option.noConfusion h

theorem tryDmy2_some {sep : Char} {s : List Char} {dt : Date}
    (h : tryDmy2 sep s = some dt) : dt.Valid ∧ dt.y ≤ 9999 := by
  unfold tryDmy2 at h
  split at h
  · rename_i d m y heq
    exact mkValidDate_some h
  · exact Option.noConfusion h

theorem tryFormats_some {s : List Char} {dt : Date}
    (h : tryFormats s = some dt) : dt.Valid ∧ dt.y ≤ 9999 := by
  unfold tryFormats at h
  split at h
  · rename_i dt2 heq
    cases h
    exact tryYmd_some heq
  · split at h
    · rename_i dt2 heq
      cases h
      exact tryDmy4_some heq
    · split at h
      · rename_i dt2 heq
        cases h
        exact tryDmy4_some heq
      · split at h
        · rename_i dt2 heq
          cases h
          exact tryDmy4_some heq
        · split at h
          · rename_i dt2 heq
            cases h
            exact tryDmy2_some heq
          · split at h
            · rename_i dt2 heq
              cases h
              exact tryDmy2_some heq
            · exact tryDmy2_some h

theorem isLeap_add_2000 {y : Int} (h1 : 1 ≤ y) (h2 : y < 100) :
    isLeap (y + 2000) = isLeap y := by
  by_cases hb : isLeap y = true
  · rw [hb]
    rw [isLeap_iff] at hb ⊢
    omega
  · have hb2 : isLeap y = false := by
      cases hq : isLeap y
      · rfl
      · exact absurd hq hb
    rw [hb2]
    have hn : ¬ isLeap (y + 2000) = true := by
      rw [isLeap_iff]
      rw [isLeap_iff] at hb
      omega
    cases hq : isLeap (y + 2000)
    · rfl
    · exact absurd hq hn

theorem daysInMonth_add_2000 {y : Int} (h1 : 1 ≤ y) (h2 : y < 100)
    (m : Int) : daysInMonth (y + 2000) m = daysInMonth y m := by
  unfold daysInMonth
  rw [isLeap_add_2000 h1 h2]

theorem correction_props {dt : Date} (hv : dt.Valid) (h9 : dt.y ≤ 9999) :
    (if dt.y < 100 then Date.mk (dt.y + 2000) dt.m dt.d else dt).Valid ∧
      100 ≤ (if dt.y < 100 then Date.mk (dt.y + 2000) dt.m dt.d else dt).y ∧
      (if dt.y < 100 then Date.mk (dt.y + 2000) dt.m dt.d else dt).y
        ≤ 9999 := by
  obtain ⟨a1, a2, a3, a4, a5⟩ := hv
  split_ifs with hc
  · refine ⟨⟨?_, a2, a3, a4, ?_⟩, ?_, ?_⟩
    · show 1 ≤ dt.y + 2000
      omega
    · show dt.d ≤ daysInMonth (dt.y + 2000) dt.m
      rw [daysInMonth_add_2000 a1 hc]
      exact a5
    · show 100 ≤ dt.y + 2000
      omega
    · show dt.y + 2000 ≤ 9999
      omega
  · exact ⟨⟨a1, a2, a3, a4, a5⟩, by omega, h9⟩

theorem tryFormats_first {s : List Char} {dt : Date}
    (h : tryYmd s = some dt) : tryFormats s = some dt := by
  unfold tryFormats
  rw [h]

theorem parse_eq_of_tryFormats {s : String} {dt : Date}
    (h : tryFormats (removeSpaces s.data) = some dt) :
    parse_date_flexible s
      = some (String.mk (formatYmd
          (if dt.y < 100 then Date.mk (dt.y + 2000) dt.m dt.d else dt))) := by
  unfold parse_date_flexible
  rw [h]

theorem parse_canonical {dt : Date} (hv : dt.Valid) (h100 : 100 ≤ dt.y)
    (h9999 : dt.y ≤ 9999) :
    parse_date_flexible (String.mk (formatYmd dt))
      = some (String.mk (formatYmd dt)) := by
  obtain ⟨y, m, d⟩ := dt
  rw [valid_mk] at hv
  obtain ⟨a1, ⟨a2, a3, a4, a5⟩⟩ := hv
  have hy100 : (100 : Int) ≤ y := h100
  have hy9 : y ≤ (9999 : Int) := h9999
  have hyn : y.toNat ≤ 9999 := by omega
  have hmn1 : 1 ≤ m.toNat := by omega
  have hmn2 : m.toNat ≤ 12 := by omega
  have hdn1 : 1 ≤ d.toNat := by omega
  have hdn2 : d.toNat ≤ 31 := by
    have h31 := daysInMonth_le_31 y m
    omega
  have hey : ((y.toNat : Nat) : Int) = y := Int.toNat_of_nonneg (by omega)
  have hem : ((m.toNat : Nat) : Int) = m := Int.toNat_of_nonneg (by omega)
  have hed : ((d.toNat : Nat) : Int) = d := Int.toNat_of_nonneg (by omega)
  have hfmt : formatYmd ⟨y, m, d⟩
      = pad4 y.toNat ++ '-' :: (pad2 m.toNat ++ '-' :: pad2 d.toNat) := rfl
  have hmk : mkValidDate y.toNat m.toNat d.toNat = some ⟨y, m, d⟩ := by
    unfold mkValidDate
    simp only [hey, hem, hed]
    split_ifs with hc
    · rfl
    · exact absurd ⟨valid_mk.mpr ⟨a1, a2, a3, a4, a5⟩, hyn⟩ hc
  have hdata : removeSpaces (String.mk (formatYmd ⟨y, m, d⟩)).data
      = pad4 y.toNat ++ '-' :: (pad2 m.toNat ++ '-' :: pad2 d.toNat) := by
    show removeSpaces (formatYmd ⟨y, m, d⟩) = _
    rw [hfmt]
    rw [removeSpaces_pad4_sep hyn (by decide)]
    rw [removeSpaces_pad2_sep (show m.toNat ≤ 99 from by omega) (by decide)]
    rw [removeSpaces_pad2 (show d.toNat ≤ 99 from by omega)]
  have htf : tryFormats
      (removeSpaces (String.mk (formatYmd ⟨y, m, d⟩)).data)
        = some ⟨y, m, d⟩ := by
    rw [hdata]
    exact tryFormats_first
      (by rw [tryYmd_canonical hyn hmn1 hmn2 hdn1 hdn2, hmk])
  rw [parse_eq_of_tryFormats htf]
  split_ifs with hcc
  · exact absurd (show y < 100 from hcc) (by omega)
  · rfl

/-- C10: `parse_date_flexible` is idempotent on its outputs — whenever it
accepts an input string `s` and returns the canonical string `r`, feeding
`r` back in parses successfully (under the canonical `%Y-%m-%d` format)
and returns `r` itself unchanged. -/
theorem C10_parse_idempotent (s r : String)
    (h : parse_date_flexible s = some r) :
    parse_date_flexible r = some r := by
  unfold parse_date_flexible at h
  split at h
  · exact Option.noConfusion h
  · rename_i dt heq
    dsimp only at h
    have hinj : String.mk (formatYmd
        (if dt.y < 100 then Date.mk (dt.y + 2000) dt.m dt.d else dt)) = r :=
      Option.some.inj h
    obtain ⟨hv, h9⟩ := tryFormats_some heq
    obtain ⟨hv2, h100, h99⟩ := correction_props hv h9
    rw [← hinj]
    exact parse_canonical hv2 h100 h99

/-- Witness for C10 at the accepted input `"1.6.24"`, whose output
`"2024-06-01"` reparses to itself. -/
theorem C10_witness :
    parse_date_flexible (String.mk ['1', '.', '6', '.', '2', '4'])
      = some (String.mk (formatYmd ⟨2024, 6, 1⟩)) ∧
    parse_date_flexible (String.mk (formatYmd ⟨2024, 6, 1⟩))
      = some (String.mk (formatYmd ⟨2024, 6, 1⟩)) :=
  ⟨by decide,
    C10_parse_idempotent (String.mk ['1', '.', '6', '.', '2', '4'])
      (String.mk (formatYmd ⟨2024, 6, 1⟩)) (by decide)⟩
